import Mathlib

/-!
Verification of the veneer documentation-site generator.

This file gives a shallow embedding, in Lean 4, of the core text-processing
functions of the `veneer` repository (crates `veneer-mdx`, `veneer-adapters`
and `veneer-static`), together with theorems settling the specification
claims about them.

Modelling conventions:
* Rust `String`/`&str` values are Lean `String`s; scanning functions work on
  `List Char` (`String.data`).  Rust's byte indices coincide with character
  indices on the ASCII inputs the claims are about.
* The regex patterns of the source (crate `regex`) are embedded as explicit
  deterministic scanners implementing the leftmost-first match semantics of
  each concrete pattern.  The character classes `\w` and `\s` are modelled by
  `Char.isAlphanum`/`'_'` and `Char.isWhitespace` (ASCII approximation of the
  Unicode-aware classes; all claim inputs are ASCII).
* Rust `HashMap`s are modelled as association lists: `insert` overwrites the
  value of an existing key in place, otherwise appends.  Iteration order of a
  Rust `HashMap` is unspecified; the model iterates in this list order.
* While loops are embedded as fuel-indexed recursions; the fuel supplied is a
  proven-sufficient bound (each iteration strictly advances the scan position).
-/

namespace Veneer

/-! ## Character classes and scanning utilities -/

/-- ASCII model of the regex class `\w` (word character). -/
def isWordChar (c : Char) : Bool := c.isAlphanum || c == '_'

/-- The regex class `[A-Z]`. -/
def isUpperLatin (c : Char) : Bool := 'A' ≤ c && c ≤ 'Z'

/-- Does the list start with the given pattern? (`str::starts_with`). -/
def startsWithL : List Char → List Char → Bool
  | _, [] => true
  | [], _ :: _ => false
  | a :: as, b :: bs => a == b && startsWithL as bs

/-- Index of the first occurrence of `pat` (`str::find`), as a char index. -/
def findSub (pat : List Char) : List Char → Option Nat
  | [] => if startsWithL [] pat then some 0 else none
  | c :: rest =>
    if startsWithL (c :: rest) pat then some 0
    else (findSub pat rest).map (· + 1)

/-- Does `needle` occur anywhere in `hay`? (`str::contains`). -/
def containsSub (hay needle : List Char) : Bool := (findSub needle hay).isSome

/-- Replace every occurrence of the character `c` by the string `repl`
(`str::replace` with a one-character pattern). -/
def replaceChar (c : Char) (repl : List Char) : List Char → List Char
  | [] => []
  | a :: as => (if a == c then repl else [a]) ++ replaceChar c repl as

/-- `str::trim` (both ends), on character lists. -/
def trimL (l : List Char) : List Char :=
  ((l.dropWhile Char.isWhitespace).reverse.dropWhile Char.isWhitespace).reverse

/-- `str::trim` on strings. -/
def trimS (s : String) : String := ⟨trimL s.data⟩

/-- `str::trim_start` on strings. -/
def trimStartS (s : String) : String := ⟨s.data.dropWhile Char.isWhitespace⟩

/-- Join with a separator, on character lists. -/
def intercalateL (sep : List Char) : List (List Char) → List Char
  | [] => []
  | [x] => x
  | x :: y :: rest => x ++ sep ++ intercalateL sep (y :: rest)

/-! ## `veneer-adapters/src/inline.rs` — inline usage parser -/

/-- A prop value from JSX (`inline.rs` `PropValue`). -/
inductive PropValue where
  | string : String → PropValue
  | boolean : Bool → PropValue
  | expression : String → PropValue
deriving Repr, DecidableEq

/-- Parsed inline JSX element (`inline.rs` `InlineJsx`); `props` models the
Rust `HashMap<String, PropValue>` as an association list. -/
structure InlineJsx where
  component : String
  props : List (String × PropValue)
  children : Option String
  self_closing : Bool
deriving Repr, DecidableEq

/-- `HashMap::insert`: overwrite the value at an existing key, else add. -/
def mapInsert (m : List (String × PropValue)) (k : String) (v : PropValue) :
    List (String × PropValue) :=
  if m.any (fun p => p.1 == k) then
    m.map (fun p => if p.1 == k then (k, v) else p)
  else m ++ [(k, v)]

/-- One match attempt, at the current position, of the prop pattern
`([a-zA-Z][a-zA-Z0-9]*)(?:\s*=\s*(?:"([^"]*)"|'([^']*)'|\x7b([^}]*)\x7d))?`.
Returns the captured prop and the number of characters consumed.  When the
optional assignment part cannot complete, the match is the bare name
(a boolean-true prop), exactly as the regex backtracks. -/
def matchPropAt (s : List Char) : Option (String × PropValue × Nat) :=
  match s with
  | [] => none
  | c :: cs =>
    if c.isAlpha then
      let nameTail := cs.takeWhile Char.isAlphanum
      let name : String := ⟨c :: nameTail⟩
      let nameLen := 1 + nameTail.length
      let afterName := cs.dropWhile Char.isAlphanum
      let ws1 := afterName.takeWhile Char.isWhitespace
      match afterName.dropWhile Char.isWhitespace with
      | '=' :: afterEq =>
        let ws2 := afterEq.takeWhile Char.isWhitespace
        let body := afterEq.dropWhile Char.isWhitespace
        let prefixLen := nameLen + ws1.length + 1 + ws2.length
        match body with
        | '"' :: rest =>
          let content := rest.takeWhile (· ≠ '"')
          (match rest.dropWhile (· ≠ '"') with
           | '"' :: _ =>
             some (name, PropValue.string ⟨content⟩, prefixLen + content.length + 2)
           | _ => some (name, PropValue.boolean true, nameLen))
        | '\'' :: rest =>
          let content := rest.takeWhile (· ≠ '\'')
          (match rest.dropWhile (· ≠ '\'') with
           | '\'' :: _ =>
             some (name, PropValue.string ⟨content⟩, prefixLen + content.length + 2)
           | _ => some (name, PropValue.boolean true, nameLen))
        | '{' :: rest =>
          let content := rest.takeWhile (· ≠ '}')
          (match rest.dropWhile (· ≠ '}') with
           | '}' :: _ =>
             some (name, PropValue.expression ⟨content⟩, prefixLen + content.length + 2)
           | _ => some (name, PropValue.boolean true, nameLen))
        | _ => some (name, PropValue.boolean true, nameLen)
      | _ => some (name, PropValue.boolean true, nameLen)
    else none

/-- `captures_iter` of the prop pattern: successive leftmost matches. -/
def propsCapturesAux : Nat → List Char → List (String × PropValue)
  | 0, _ => []
  | _, [] => []
  | fuel + 1, c :: cs =>
    match matchPropAt (c :: cs) with
    | some (n, v, k) => (n, v) :: propsCapturesAux fuel (List.drop k (c :: cs))
    | none => propsCapturesAux fuel cs

/-- `inline.rs` `parse_props`. -/
def parse_props (props_str : String) : List (String × PropValue) :=
  let t := trimS props_str
  if t.data.isEmpty then []
  else (propsCapturesAux (t.length + 1) t.data).foldl
    (fun m p => mapInsert m p.1 p.2) []

/-- `inline.rs` `parse_self_closing`, embedding the anchored pattern
`^<([A-Z][a-zA-Z0-9]*)\s*([^/>]*?)\s*/>`: after the tag name the scan reaches
the first `/` or `>`; the match succeeds only when that is a `/` immediately
followed by `>`, and the lazily/greedily resolved capture is the intervening
segment with surrounding whitespace stripped. -/
def parse_self_closing (source : String) : Option InlineJsx :=
  match source.data with
  | '<' :: c :: cs =>
    if isUpperLatin c then
      let name : String := ⟨c :: cs.takeWhile Char.isAlphanum⟩
      let after := cs.dropWhile Char.isAlphanum
      let seg := after.takeWhile (fun ch => ch ≠ '/' && ch ≠ '>')
      match after.dropWhile (fun ch => ch ≠ '/' && ch ≠ '>') with
      | '/' :: '>' :: _ =>
        some { component := name
               props := parse_props ⟨trimL seg⟩
               children := none
               self_closing := true }
      | _ => none
    else none
  | _ => none

/-- The open-tag pattern of `parse_with_children`,
`^<([A-Z][a-zA-Z0-9]*)\s*([^>]*)>`: returns component, the captured props
text (leading whitespace absorbed by the greedy `\s*`), and the length of
the whole open tag. -/
def matchOpenTag (s : List Char) : Option (String × String × Nat) :=
  match s with
  | '<' :: c :: cs =>
    if isUpperLatin c then
      let nameTail := cs.takeWhile Char.isAlphanum
      let after := cs.dropWhile Char.isAlphanum
      let upToGt := after.takeWhile (· ≠ '>')
      match after.dropWhile (· ≠ '>') with
      | '>' :: _ =>
        some (⟨c :: nameTail⟩, (String.mk (upToGt.dropWhile Char.isWhitespace)),
          1 + (1 + nameTail.length) + upToGt.length + 1)
      | _ => none
    else none
  | _ => none

/-- Loop body of `find_matching_close_tag` (`inline.rs` lines 89–142), with
fuel; each iteration strictly increases `pos`, so fuel
`remaining.length + 1` is sufficient for the loop to run to completion. -/
def fmcAux (openPat closeTag remaining : List Char) (startPos : Nat) :
    Nat → Nat → Nat → Option Nat
  | 0, _, _ => none
  | fuel + 1, depth, pos =>
    if depth > 0 && pos < remaining.length then
      let tail := remaining.drop pos
      match findSub openPat tail, findSub closeTag tail with
      | some o, some c =>
        if o < c then
          let tagStart := pos + o
          let afterName := remaining.drop (tagStart + openPat.length)
          if startsWithL afterName ['/', '>'] || startsWithL afterName [' ', '/', '>']
              || (startsWithL afterName ['\t']
                  && startsWithL (afterName.dropWhile Char.isWhitespace) ['/', '>']) then
            fmcAux openPat closeTag remaining startPos fuel depth
              (tagStart + openPat.length)
          else if startsWithL afterName ['>'] || startsWithL afterName [' ']
              || startsWithL afterName ['\n'] then
            fmcAux openPat closeTag remaining startPos fuel (depth + 1)
              (tagStart + openPat.length)
          else
            fmcAux openPat closeTag remaining startPos fuel depth (tagStart + 1)
        else if c < o then
          if depth - 1 == 0 then some (startPos + pos + c)
          else fmcAux openPat closeTag remaining startPos fuel (depth - 1)
            (pos + c + closeTag.length)
        else
          fmcAux openPat closeTag remaining startPos fuel depth (pos + o + 1)
      | none, some c =>
        if depth - 1 == 0 then some (startPos + pos + c)
        else fmcAux openPat closeTag remaining startPos fuel (depth - 1)
          (pos + c + closeTag.length)
      | some _, none => none
      | none, none => none
    else none

/-- `inline.rs` `find_matching_close_tag`. -/
def find_matching_close_tag (source component : String) (start_pos : Nat) :
    Option Nat :=
  let openPat := '<' :: component.data
  let closeTag := '<' :: '/' :: (component.data ++ ['>'])
  let remaining := source.data.drop start_pos
  fmcAux openPat closeTag remaining start_pos (remaining.length + 1) 1 0

/-- `inline.rs` `parse_with_children`. -/
def parse_with_children (source : String) : Option InlineJsx :=
  match matchOpenTag source.data with
  | none => none
  | some (component, propsStr, openLen) =>
    match find_matching_close_tag source component openLen with
    | none => none
    | some closePos =>
      let childrenRaw := trimL ((source.data.drop openLen).take (closePos - openLen))
      some { component
             props := parse_props propsStr
             children := if childrenRaw.isEmpty then none else some ⟨childrenRaw⟩
             self_closing := false }

/-- `inline.rs` `parse_inline_jsx`. -/
def parse_inline_jsx (source : String) : Option InlineJsx :=
  let s := trimS source
  match parse_self_closing s with
  | some jsx => some jsx
  | none => parse_with_children s

/-- The five sequential `str::replace` calls of `html_escape`, on character
lists. -/
def escChain (l : List Char) : List Char :=
  replaceChar '\'' "&#x27;".data
    (replaceChar '"' "&quot;".data
      (replaceChar '>' "&gt;".data
        (replaceChar '<' "&lt;".data
          (replaceChar '&' "&amp;".data l))))

/-- `inline.rs` `html_escape`: `&`, `<`, `>`, `"`, `'` replaced in sequence. -/
def html_escape (s : String) : String := ⟨escChain s.data⟩

/-- The attribute chunks pushed by `to_custom_element`'s prop loop:
string props render as `key="escaped"`, true booleans as the bare key,
false booleans and expressions are dropped. -/
def attrStrings (jsx : InlineJsx) : List String :=
  jsx.props.filterMap (fun kv =>
    match kv.2 with
    | PropValue.string s => some (kv.1 ++ "=\"" ++ html_escape s ++ "\"")
    | PropValue.boolean true => some kv.1
    | PropValue.boolean false => none
    | PropValue.expression _ => none)

/-- `inline.rs` `to_custom_element` (`attrs.join(" ")` written as an explicit
single-space interleaving). -/
def to_custom_element (jsx : InlineJsx) (tag_name : String) : String :=
  let attrs := attrStrings jsx
  let attrs_str :=
    if attrs.isEmpty then ""
    else " " ++ String.mk (intercalateL [' '] (attrs.map String.data))
  match jsx.children with
  | some children =>
    "<" ++ tag_name ++ attrs_str ++ ">" ++ children ++ "</" ++ tag_name ++ ">"
  | none =>
    "<" ++ tag_name ++ attrs_str ++ "></" ++ tag_name ++ ">"

/-! ## `veneer-adapters/src/traits.rs` -/

deriving instance DecidableEq for Except

/-- `traits.rs` `TransformError`. -/
inductive TransformError where
  | parseError : String → TransformError
  | transformError : String → TransformError
  | missingVariants : TransformError
  | invalidStructure : String → TransformError
deriving Repr, DecidableEq

/-- `traits.rs` `TransformedBlock`. -/
structure TransformedBlock where
  web_component : String
  tag_name : String
  classes_used : List String
  attributes : List String
deriving Repr, DecidableEq

/-! ## `veneer-adapters/src/react.rs` — structural extractor -/

/-- `react.rs` `ComponentStructure`. -/
structure ComponentStructure where
  name : String
  variant_lookup : List (String × String)
  size_lookup : List (String × String)
  base_classes : String
  disabled_classes : String
  default_variant : String
  default_size : String
  observed_attributes : List String
deriving Repr, DecidableEq

/-- One match attempt of `RECORD_RE`
`const\s+(\w+)\s*(?::\s*Record<[^>]+>)?\s*=\s*\x7b([^}]+)\x7d` at the current
position.  Returns the two captures (record name, object-literal body) and
the remaining input after the match. -/
def matchRecordAt (s : List Char) : Option (String × String × List Char) :=
  if startsWithL s "const".data then
    let s1 := s.drop 5
    if (s1.takeWhile Char.isWhitespace).isEmpty then none else
    let s2 := s1.dropWhile Char.isWhitespace
    let nm := s2.takeWhile isWordChar
    if nm.isEmpty then none else
    let s3 := s2.dropWhile isWordChar
    let s4 := s3.dropWhile Char.isWhitespace
    let afterAnn : Option (List Char) :=
      match s4 with
      | ':' :: r =>
        let r1 := r.dropWhile Char.isWhitespace
        if startsWithL r1 "Record<".data then
          let r2 := r1.drop 7
          if (r2.takeWhile (· ≠ '>')).isEmpty then none else
          match r2.dropWhile (· ≠ '>') with
          | '>' :: r3 => some (r3.dropWhile Char.isWhitespace)
          | _ => none
        else none
      | other => some other
    match afterAnn with
    | none => none
    | some s6 =>
      match s6 with
      | '=' :: s7 =>
        match s7.dropWhile Char.isWhitespace with
        | '{' :: s9 =>
          let body := s9.takeWhile (· ≠ '}')
          if body.isEmpty then none else
          match s9.dropWhile (· ≠ '}') with
          | '}' :: s10 => some (⟨nm⟩, ⟨body⟩, s10)
          | _ => none
        | _ => none
      | _ => none
  else none

/-- `captures_iter` of `RECORD_RE`: successive leftmost matches. -/
def recordCapturesAux : Nat → List Char → List (String × String)
  | 0, _ => []
  | _, [] => []
  | fuel + 1, c :: cs =>
    match matchRecordAt (c :: cs) with
    | some (n, b, rest) => (n, b) :: recordCapturesAux fuel rest
    | none => recordCapturesAux fuel cs

/-- One match attempt of `ENTRY_RE` `(\w+)\s*:\s*[quote]([^quote]*)[quote]`
(single or double quotes, a mismatched closing quote accepted, exactly as the
source's character classes allow). -/
def matchEntryAt (s : List Char) : Option (String × String × List Char) :=
  match s with
  | [] => none
  | c :: cs =>
    if isWordChar c then
      let s1 := cs.dropWhile isWordChar
      let s2 := s1.dropWhile Char.isWhitespace
      match s2 with
      | ':' :: s3 =>
        match s3.dropWhile Char.isWhitespace with
        | q :: s5 =>
          if q == '\'' || q == '"' then
            let v := s5.takeWhile (fun ch => ch ≠ '\'' && ch ≠ '"')
            match s5.dropWhile (fun ch => ch ≠ '\'' && ch ≠ '"') with
            | q2 :: s6 =>
              if q2 == '\'' || q2 == '"' then
                some (⟨c :: cs.takeWhile isWordChar⟩, ⟨v⟩, s6)
              else none
            | [] => none
          else none
        | [] => none
      | _ => none
    else none

/-- `captures_iter` of `ENTRY_RE`. -/
def entryCapturesAux : Nat → List Char → List (String × String)
  | 0, _ => []
  | _, [] => []
  | fuel + 1, c :: cs =>
    match matchEntryAt (c :: cs) with
    | some (n, v, rest) => (n, v) :: entryCapturesAux fuel rest
    | none => entryCapturesAux fuel cs

/-- `react.rs` `extract_record`: for every `RECORD_RE` capture whose record
name equals `name`, push every `ENTRY_RE` capture of its body, in order.
The function never returns an error. -/
def extract_record (source name : String) :
    Except TransformError (List (String × String)) :=
  Except.ok
    ((((recordCapturesAux (source.data.length + 1) source.data).filter
        (fun p => p.1 == name)).map
        (fun p => entryCapturesAux (p.2.data.length + 1) p.2.data)).flatten)

/-- One match attempt of `COMPONENT_NAME_RE`
`(?:export\s+)?(?:function|const)\s+([A-Z][a-zA-Z0-9]*)`. -/
def matchComponentNameAt (s : List Char) : Option String :=
  let tryKw : List Char → Option String := fun t =>
    let afterKw : Option (List Char) :=
      if startsWithL t "function".data then some (t.drop 8)
      else if startsWithL t "const".data then some (t.drop 5)
      else none
    match afterKw with
    | none => none
    | some u =>
      if (u.takeWhile Char.isWhitespace).isEmpty then none else
      match u.dropWhile Char.isWhitespace with
      | d :: ds => if isUpperLatin d then some ⟨d :: ds.takeWhile Char.isAlphanum⟩ else none
      | [] => none
  match (if startsWithL s "export".data then
           let u := s.drop 6
           if (u.takeWhile Char.isWhitespace).isEmpty then none
           else tryKw (u.dropWhile Char.isWhitespace)
         else none) with
  | some r => some r
  | none => tryKw s

/-- First match of `COMPONENT_NAME_RE`, scanning left to right. -/
def componentNameScan : List Char → Option String
  | [] => none
  | c :: cs =>
    match matchComponentNameAt (c :: cs) with
    | some r => some r
    | none => componentNameScan cs

/-- `react.rs` `extract_component_name`. -/
def extract_component_name (source : String) : Option String :=
  componentNameScan source.data

/-- One match attempt of the quoted-fragment pattern
`[quote]([^quote]*)[quote]` used by `parse_concatenated_string`. -/
def matchStrLitAt (s : List Char) : Option (String × List Char) :=
  match s with
  | q :: s1 =>
    if q == '\'' || q == '"' then
      let v := s1.takeWhile (fun ch => ch ≠ '\'' && ch ≠ '"')
      match s1.dropWhile (fun ch => ch ≠ '\'' && ch ≠ '"') with
      | q2 :: s2 => if q2 == '\'' || q2 == '"' then some (⟨v⟩, s2) else none
      | [] => none
    else none
  | [] => none

/-- `captures_iter` of the quoted-fragment pattern. -/
def strLitCapturesAux : Nat → List Char → List String
  | 0, _ => []
  | _, [] => []
  | fuel + 1, c :: cs =>
    match matchStrLitAt (c :: cs) with
    | some (v, rest) => v :: strLitCapturesAux fuel rest
    | none => strLitCapturesAux fuel cs

/-- `List.dropWhile` never lengthens a list. -/
theorem lengthDropWhileLe (p : Char → Bool) :
    ∀ l : List Char, (l.dropWhile p).length ≤ l.length := by
  intro l
  induction l with
  | nil => simp [List.dropWhile]
  | cons c cs ih =>
    by_cases h : p c
    · simpa [List.dropWhile, h] using Nat.le_succ_of_le ih
    · simp [List.dropWhile, h]

/-- `takeWhile` on a cons with a satisfied predicate (explicit arguments). -/
theorem takeWhileConsPos {α : Type} (p : α → Bool) (a : α) (l : List α)
    (h : p a = true) : (a :: l).takeWhile p = a :: l.takeWhile p := by
  simp [List.takeWhile_cons, h]

/-- `dropWhile` on a cons with a satisfied predicate (explicit arguments). -/
theorem dropWhileConsPos {α : Type} (p : α → Bool) (a : α) (l : List α)
    (h : p a = true) : (a :: l).dropWhile p = l.dropWhile p := by
  simp [List.dropWhile_cons, h]

/-- `filter` keeps a satisfying head (explicit arguments). -/
theorem filterConsPos {α : Type} (p : α → Bool) (a : α) (l : List α)
    (h : p a = true) : (a :: l).filter p = a :: l.filter p := by
  simp [List.filter_cons, h]

/-- `filter` drops a failing head (explicit arguments). -/
theorem filterConsNeg {α : Type} (p : α → Bool) (a : α) (l : List α)
    (h : p a = false) : (a :: l).filter p = l.filter p := by
  simp [List.filter_cons, h]

/-- Maximal runs of characters satisfying `keep`, in order. -/
def runsL (keep : Char → Bool) : List Char → List (List Char)
  | [] => []
  | c :: cs =>
    if keep c then
      (c :: cs.takeWhile keep) :: runsL keep (cs.dropWhile keep)
    else runsL keep cs
termination_by l => l.length
decreasing_by
  · simp only [List.length_cons]
    exact Nat.lt_succ_of_le (lengthDropWhileLe _ _)
  · simp only [List.length_cons]; omega

/-- Split a character list into maximal whitespace-free words
(`str::split_whitespace`). -/
def wordsL : List Char → List (List Char) := runsL (fun x => !x.isWhitespace)

/-- `react.rs` `parse_concatenated_string`: collect every quoted fragment,
join with single spaces, normalize internal whitespace. -/
def parse_concatenated_string (raw : String) : String :=
  let frags := strLitCapturesAux (raw.data.length + 1) raw.data
  let joined := intercalateL [' '] (frags.map String.data)
  ⟨intercalateL [' '] (wordsL joined)⟩

/-- One match attempt of `BASE_CLASSES_CONCAT_RE`
`const\s+baseClasses\s*=\s*\n?\s*(['quote][^;]+)`: the capture is the opening
quote together with everything up to (excluding) the first semicolon. -/
def matchBaseConcatAt (s : List Char) : Option String :=
  if startsWithL s "const".data then
    let s1 := s.drop 5
    if (s1.takeWhile Char.isWhitespace).isEmpty then none else
    let s2 := s1.dropWhile Char.isWhitespace
    if startsWithL s2 "baseClasses".data then
      let s3 := (s2.drop 11).dropWhile Char.isWhitespace
      match s3 with
      | '=' :: s4 =>
        match s4.dropWhile Char.isWhitespace with
        | q :: r =>
          if q == '\'' || q == '"' then
            let run := r.takeWhile (· ≠ ';')
            if run.isEmpty then none else some ⟨q :: run⟩
          else none
        | [] => none
      | _ => none
    else none
  else none

/-- First match of `BASE_CLASSES_CONCAT_RE`. -/
def baseConcatScan : List Char → Option String
  | [] => none
  | c :: cs =>
    match matchBaseConcatAt (c :: cs) with
    | some r => some r
    | none => baseConcatScan cs

/-- One match attempt of `BASE_CLASSES_SIMPLE_RE`
`const\s+baseClasses\s*=\s*['quote]([^'quote]+)['quote]`. -/
def matchBaseSimpleAt (s : List Char) : Option String :=
  if startsWithL s "const".data then
    let s1 := s.drop 5
    if (s1.takeWhile Char.isWhitespace).isEmpty then none else
    let s2 := s1.dropWhile Char.isWhitespace
    if startsWithL s2 "baseClasses".data then
      let s3 := (s2.drop 11).dropWhile Char.isWhitespace
      match s3 with
      | '=' :: s4 =>
        match s4.dropWhile Char.isWhitespace with
        | q :: r =>
          if q == '\'' || q == '"' then
            let v := r.takeWhile (fun ch => ch ≠ '\'' && ch ≠ '"')
            if v.isEmpty then none else
            match r.dropWhile (fun ch => ch ≠ '\'' && ch ≠ '"') with
            | q2 :: _ => if q2 == '\'' || q2 == '"' then some ⟨v⟩ else none
            | [] => none
          else none
        | [] => none
      | _ => none
    else none
  else none

/-- First match of `BASE_CLASSES_SIMPLE_RE`. -/
def baseSimpleScan : List Char → Option String
  | [] => none
  | c :: cs =>
    match matchBaseSimpleAt (c :: cs) with
    | some r => some r
    | none => baseSimpleScan cs

/-- `react.rs` `extract_base_classes`. -/
def extract_base_classes (source : String) : Option String :=
  match baseConcatScan source.data with
  | some raw =>
    let classes := parse_concatenated_string raw
    if classes.data.isEmpty then baseSimpleScan source.data else some classes
  | none => baseSimpleScan source.data

/-- One match attempt of `DISABLED_CLASSES_RE`
`(?:const\s+)?disabledCl(?:asse)?s\s*=\s*['quote]([^'quote]+)['quote]`. -/
def matchDisabledAt (s : List Char) : Option String :=
  let core : List Char → Option String := fun t =>
    if startsWithL t "disabledCl".data then
      let u := t.drop 10
      let afterS : Option (List Char) :=
        if startsWithL u "asses".data then some (u.drop 5)
        else if startsWithL u "s".data then some (u.drop 1)
        else none
      match afterS with
      | none => none
      | some v =>
        match v.dropWhile Char.isWhitespace with
        | '=' :: w =>
          match w.dropWhile Char.isWhitespace with
          | q :: r =>
            if q == '\'' || q == '"' then
              let val := r.takeWhile (fun ch => ch ≠ '\'' && ch ≠ '"')
              if val.isEmpty then none else
              match r.dropWhile (fun ch => ch ≠ '\'' && ch ≠ '"') with
              | q2 :: _ => if q2 == '\'' || q2 == '"' then some ⟨val⟩ else none
              | [] => none
            else none
          | [] => none
        | _ => none
    else none
  match (if startsWithL s "const".data then
           let s1 := s.drop 5
           if (s1.takeWhile Char.isWhitespace).isEmpty then none
           else core (s1.dropWhile Char.isWhitespace)
         else none) with
  | some r => some r
  | none => core s

/-- First match of `DISABLED_CLASSES_RE`. -/
def disabledScan : List Char → Option String
  | [] => none
  | c :: cs =>
    match matchDisabledAt (c :: cs) with
    | some r => some r
    | none => disabledScan cs

/-- `react.rs` `extract_disabled_classes`. -/
def extract_disabled_classes (source : String) : Option String :=
  disabledScan source.data

/-- Does the character list end with the given pattern? -/
def endsWithL (s pat : List Char) : Bool := startsWithL s.reverse pat.reverse

/-- One match attempt of `PROPS_INTERFACE_RE`
`interface\s+\w*Props\s*\x7b([^}]+)\x7d`: the word run after `interface`
must end in `Props` (via the backtracking of the greedy `\w*`). -/
def matchPropsInterfaceAt (s : List Char) : Option String :=
  if startsWithL s "interface".data then
    let s1 := s.drop 9
    if (s1.takeWhile Char.isWhitespace).isEmpty then none else
    let s2 := s1.dropWhile Char.isWhitespace
    let w := s2.takeWhile isWordChar
    if endsWithL w "Props".data then
      match (s2.dropWhile isWordChar).dropWhile Char.isWhitespace with
      | '{' :: s4 =>
        let body := s4.takeWhile (· ≠ '}')
        if body.isEmpty then none else
        match s4.dropWhile (· ≠ '}') with
        | '}' :: _ => some ⟨body⟩
        | _ => none
      | _ => none
    else none
  else none

/-- First match of `PROPS_INTERFACE_RE`. -/
def propsInterfaceScan : List Char → Option String
  | [] => none
  | c :: cs =>
    match matchPropsInterfaceAt (c :: cs) with
    | some r => some r
    | none => propsInterfaceScan cs

/-- One match attempt of `DESTRUCTURE_RE`
`\x7b\s*([^}]+)\s*\x7d\s*(?::\s*\w+)?\s*\)`: the capture is the brace body
with leading whitespace stripped by the greedy `\s*` (the trailing `\s*`
matches empty, the greedy `[^}]+` having consumed everything). -/
def matchDestructureAt (s : List Char) : Option String :=
  match s with
  | '{' :: s1 =>
    let body := s1.takeWhile (· ≠ '}')
    if body.isEmpty then none else
    (match s1.dropWhile (· ≠ '}') with
     | '}' :: s2 =>
       let s3 := s2.dropWhile Char.isWhitespace
       let afterAnn : Option (List Char) :=
         match s3 with
         | ':' :: r =>
           let r1 := r.dropWhile Char.isWhitespace
           if (r1.takeWhile isWordChar).isEmpty then none
           else some (r1.dropWhile isWordChar)
         | other => some other
       match afterAnn with
       | none => none
       | some s4 =>
         match s4.dropWhile Char.isWhitespace with
         | ')' :: _ => some ⟨body.dropWhile Char.isWhitespace⟩
         | _ => none
     | _ => none)
  | _ => none

/-- First match of `DESTRUCTURE_RE`. -/
def destructureScan : List Char → Option String
  | [] => none
  | c :: cs =>
    match matchDestructureAt (c :: cs) with
    | some r => some r
    | none => destructureScan cs

/-- Split a character list on a separator character (`str::split`). -/
def splitOnCharAux (sep : Char) : List Char → List Char → List (List Char)
  | acc, [] => [acc.reverse]
  | acc, c :: rest =>
    if c == sep then acc.reverse :: splitOnCharAux sep [] rest
    else splitOnCharAux sep (c :: acc) rest

/-- `str::split(sep)` for a single-character separator. -/
def splitOnChar (sep : Char) (l : List Char) : List (List Char) :=
  splitOnCharAux sep [] l

/-- Strip one trailing carriage return (for `str::lines`). -/
def stripCr (l : List Char) : List Char :=
  match l.reverse with
  | '\r' :: r => r.reverse
  | _ => l

/-- `str::lines`: split on newlines, no trailing empty line, `\r` stripped. -/
def rustLines (l : List Char) : List (List Char) :=
  match l with
  | [] => []
  | _ =>
    let raw := splitOnChar '\n' l
    let raw :=
      match raw.reverse with
      | [] => []
      | lst :: rest => if lst.isEmpty then rest.reverse else raw
    raw.map stripCr

/-- The exclusion test shared by the interface- and destructure-passes of
`extract_attributes`. -/
def isExcludedAttr (name : String) : Bool :=
  name == "children" || name == "className" || name == "style"

/-- `react.rs` `extract_attributes`: the four common tokens found by
substring search, then `Props`-interface field names, then
destructured-parameter names; first-seen order, deduplicated. -/
def extract_attributes (source : String) : List String :=
  let attrs :=
    (["variant", "size", "disabled", "loading"] : List String).foldl
      (fun acc attr =>
        if containsSub source.data attr.data then acc ++ [attr] else acc) []
  let attrs :=
    match propsInterfaceScan source.data with
    | none => attrs
    | some content =>
      (rustLines content.data).foldl
        (fun acc line =>
          let ln := trimL line
          let nm : String := ⟨trimL (ln.takeWhile (fun ch => ch ≠ ':' && ch ≠ '?'))⟩
          if !nm.data.isEmpty && !acc.contains nm && !startsWithL nm.data "//".data
              && nm != "children" && nm != "className" && nm != "style" then
            acc ++ [nm]
          else acc) attrs
  match destructureScan source.data with
  | none => attrs
  | some content =>
    (splitOnChar ',' content.data).foldl
      (fun acc part =>
        let nm : String := ⟨trimL (part.takeWhile (fun ch => ch ≠ '=' && ch ≠ ':'))⟩
        if !nm.data.isEmpty && !acc.contains nm
            && nm != "children" && nm != "className" && nm != "style"
            && !startsWithL nm.data "...".data then
          acc ++ [nm]
        else acc) attrs

/-- `react.rs` `ReactAdapter::extract_structure`. -/
def extract_structure (source : String) :
    Except TransformError ComponentStructure :=
  match extract_record source "variantClasses" with
  | Except.error e => Except.error e
  | Except.ok variant_lookup =>
    if variant_lookup.isEmpty then Except.error TransformError.missingVariants
    else
      let size_lookup :=
        match extract_record source "sizeClasses" with
        | Except.ok l => l
        | Except.error _ => []
      Except.ok
        { name := (extract_component_name source).getD "Component"
          base_classes := (extract_base_classes source).getD ""
          disabled_classes := (extract_disabled_classes source).getD
            "opacity-50 pointer-events-none cursor-not-allowed"
          variant_lookup := variant_lookup
          size_lookup := size_lookup
          default_variant := ((variant_lookup.head?).map Prod.fst).getD "default"
          default_size := ((size_lookup.head?).map Prod.fst).getD "default"
          observed_attributes := extract_attributes source }

/-! ## Claim C1 -/

/-- C1: structure extraction fails exactly when no `variantClasses` entry is
recovered — whenever the recovered entry list is empty it fails, and then
with the "missing variants" condition and never any other; when at least
one entry is recovered it succeeds, every other field taking its documented
default (`Component`, empty base classes, the disabled-classes fallback,
first-key or `default` defaults, the discovered attributes). -/
theorem c1_missing_variants_only_fatal (source : String) :
    (extract_record source "variantClasses" = Except.ok [] →
      extract_structure source =
        Except.error TransformError.missingVariants) ∧
    (∀ e : TransformError, extract_structure source = Except.error e →
      e = TransformError.missingVariants ∧
        extract_record source "variantClasses" = Except.ok []) ∧
    (∀ entries : List (String × String),
      extract_record source "variantClasses" = Except.ok entries →
      entries ≠ [] →
      extract_structure source = Except.ok
        { name := (extract_component_name source).getD "Component"
          base_classes := (extract_base_classes source).getD ""
          disabled_classes := (extract_disabled_classes source).getD
            "opacity-50 pointer-events-none cursor-not-allowed"
          variant_lookup := entries
          size_lookup := (extract_record source "sizeClasses").toOption.getD []
          default_variant := ((entries.head?).map Prod.fst).getD "default"
          default_size :=
            (((((extract_record source "sizeClasses").toOption.getD
              []).head?).map Prod.fst)).getD "default"
          observed_attributes := extract_attributes source }) := by
  refine ⟨?_, ?_, ?_⟩
  · intro h
    unfold extract_structure
    rw [h]
    rfl
  · intro e he
    unfold extract_structure at he
    rw [show extract_record source "variantClasses" = Except.ok
        ((((recordCapturesAux (source.data.length + 1) source.data).filter
          (fun p => p.1 == "variantClasses")).map
          (fun p => entryCapturesAux (p.2.data.length + 1) p.2.data)).flatten)
      from rfl] at he
    simp only [] at he
    split at he
    · rename_i hemp
      refine ⟨(Except.error.inj he).symm, ?_⟩
      rw [List.isEmpty_iff] at hemp
      rw [show extract_record source "variantClasses" = Except.ok
          ((((recordCapturesAux (source.data.length + 1) source.data).filter
            (fun p => p.1 == "variantClasses")).map
            (fun p => entryCapturesAux (p.2.data.length + 1) p.2.data)).flatten)
        from rfl, hemp]
    · exact absurd he (by simp)
  · intro entries hrec hne
    unfold extract_structure
    rw [hrec]
    simp only [List.isEmpty_iff]
    rw [if_neg hne]
    cases hs : extract_record source "sizeClasses" with
    | error e => exact absurd hs (by unfold extract_record; simp)
    | ok l => simp [Except.toOption]

/-- Witness for C1: the failure side at a variant-free source (both the
empty-entries-imply-failure direction and the failure-analysis direction),
the success side at a one-entry source. -/
theorem c1_missing_variants_only_fatal_witness :
    (extract_structure "export function Button() / no variants /" =
      Except.error TransformError.missingVariants) ∧
    (TransformError.missingVariants = TransformError.missingVariants ∧
      extract_record "export function Button() / no variants /" "variantClasses" =
        Except.ok []) ∧
    extract_structure "const variantClasses = \x7b a: 'x' \x7d" = Except.ok
      { name := ((extract_component_name "const variantClasses = \x7b a: 'x' \x7d")).getD
          "Component"
        base_classes :=
          (extract_base_classes "const variantClasses = \x7b a: 'x' \x7d").getD ""
        disabled_classes :=
          (extract_disabled_classes "const variantClasses = \x7b a: 'x' \x7d").getD
            "opacity-50 pointer-events-none cursor-not-allowed"
        variant_lookup := [("a", "x")]
        size_lookup :=
          (extract_record "const variantClasses = \x7b a: 'x' \x7d" "sizeClasses").toOption.getD []
        default_variant := ((([(("a" : String), ("x" : String))].head?)).map Prod.fst).getD "default"
        default_size :=
          (((((extract_record "const variantClasses = \x7b a: 'x' \x7d"
            "sizeClasses").toOption.getD []).head?).map Prod.fst)).getD "default"
        observed_attributes := extract_attributes "const variantClasses = \x7b a: 'x' \x7d" } :=
  ⟨(c1_missing_variants_only_fatal
      "export function Button() / no variants /").1 (by decide),
    (c1_missing_variants_only_fatal
      "export function Button() / no variants /").2.1
      TransformError.missingVariants (by decide),
    (c1_missing_variants_only_fatal "const variantClasses = \x7b a: 'x' \x7d").2.2
      [("a", "x")] (by decide) (by decide)⟩

/-! ## Claim C6 (counterexample part) -/

/-- C6 counterexample: on a `variantClasses` literal whose body repeats the
key `a`, `extract_record` keeps both entries in order — the extracted table
does not have unique keys and is not deduplicated by last write (which would
have produced `[("a", "y")]`). -/
theorem c6_duplicate_keys_not_deduplicated :
    extract_record "const variantClasses = \x7b a: 'x', a: 'y' \x7d" "variantClasses" =
      Except.ok [("a", "x"), ("a", "y")] ∧
    ¬ (List.map Prod.fst [(("a" : String), ("x" : String)), ("a", "y")]).Nodup ∧
    ([(("a" : String), ("x" : String)), ("a", "y")] : List (String × String)) ≠
      [("a", "y")] := by
  refine ⟨by decide, by decide, by decide⟩

/-! ## `veneer-mdx/src/frontmatter.rs` — frontmatter reader -/

/-- `frontmatter.rs` `Frontmatter`. -/
structure Frontmatter where
  title : String
  description : Option String
  component : Option String
  order : Option Int
  nav : Bool
  slug : Option String
deriving Repr, DecidableEq

/-- `frontmatter.rs` `FrontmatterError`. -/
inductive FrontmatterError where
  | unclosed : FrontmatterError
  | invalidYaml : String → FrontmatterError
deriving Repr, DecidableEq

/-- Parse one header line as `key: value` (both sides trimmed); blank lines
are skipped.  Modelled from the spec: §4.1 describes the enclosed region as a
"structured key/value header"; the concrete YAML grammar of the third-party
`serde_yaml` crate is outside the repository, so it is modelled as one
`key: value` pair per non-blank line. -/
def parseYamlLine (line : List Char) : Except String (Option (String × String)) :=
  let t := trimL line
  if t.isEmpty then Except.ok none
  else
    let k := t.takeWhile (· ≠ ':')
    match t.dropWhile (· ≠ ':') with
    | ':' :: rest =>
      let key := trimL k
      if key.isEmpty then Except.error "malformed header line"
      else Except.ok (some (⟨key⟩, ⟨trimL rest⟩))
    | _ => Except.error "malformed header line"

/-- Parse all header lines into key/value pairs (first error wins). -/
def parseYamlPairs : List (List Char) → Except String (List (String × String))
  | [] => Except.ok []
  | l :: ls =>
    match parseYamlLine l with
    | Except.error e => Except.error e
    | Except.ok none => parseYamlPairs ls
    | Except.ok (some kv) =>
      match parseYamlPairs ls with
      | Except.error e => Except.error e
      | Except.ok rest => Except.ok (kv :: rest)

/-- Decimal digits to a natural number. -/
def digitsToNat (l : List Char) : Nat :=
  l.foldl (fun acc c => acc * 10 + (c.toNat - '0'.toNat)) 0

/-- Parse an optionally negated decimal integer (the `order` field). -/
def parseIntYaml (s : List Char) : Option Int :=
  match s with
  | '-' :: ds =>
    if ds.isEmpty || ds.any (fun c => !c.isDigit) then none
    else some (-(digitsToNat ds : Int))
  | ds =>
    if ds.isEmpty || ds.any (fun c => !c.isDigit) then none
    else some (digitsToNat ds : Int)

/-- Deserialize the header region into a `Frontmatter`.  The required and
defaulted fields follow the serde attributes on the `Frontmatter` struct
(`frontmatter.rs` lines 6–30): `title` has no default and is required, every
other field is `#[serde(default)]` (with `nav` defaulting to `true`). -/
def frontmatterFromYaml (yaml : String) : Except String Frontmatter :=
  match parseYamlPairs (rustLines yaml.data) with
  | Except.error e => Except.error e
  | Except.ok pairs =>
    match List.lookup "title" pairs with
    | none => Except.error "missing field title"
    | some title =>
      let nav : Except String Bool :=
        match List.lookup "nav" pairs with
        | none => Except.ok true
        | some v =>
          if v == "true" then Except.ok true
          else if v == "false" then Except.ok false
          else Except.error "invalid value for nav"
      let order : Except String (Option Int) :=
        match List.lookup "order" pairs with
        | none => Except.ok none
        | some v =>
          match parseIntYaml v.data with
          | some n => Except.ok (some n)
          | none => Except.error "invalid value for order"
      match nav, order with
      | Except.error e, _ => Except.error e
      | _, Except.error e => Except.error e
      | Except.ok nav, Except.ok order =>
        Except.ok
          { title := title
            description := List.lookup "description" pairs
            component := List.lookup "component" pairs
            order := order
            nav := nav
            slug := List.lookup "slug" pairs }

/-- `frontmatter.rs` `extract_frontmatter`. -/
def extract_frontmatter (source : String) :
    Except FrontmatterError (Option Frontmatter × String) :=
  let trimmed := (trimStartS source).data
  if startsWithL trimmed "---".data then
    let after_open := trimmed.drop 3
    match findSub "\n---".data after_open with
    | none => Except.error FrontmatterError.unclosed
    | some close_pos =>
      let yaml_content := trimL (after_open.take close_pos)
      let remaining := after_open.drop (close_pos + 4)
      match frontmatterFromYaml ⟨yaml_content⟩ with
      | Except.error msg => Except.error (FrontmatterError.invalidYaml msg)
      | Except.ok fm =>
        Except.ok (some fm, ⟨remaining.dropWhile Char.isWhitespace⟩)
  else Except.ok (none, source)

/-! ## `veneer-mdx/src/parser.rs` — slug generation -/

/-- `parser.rs` `slugify`: lowercase; alphanumerics kept; whitespace,
hyphens and underscores become hyphens; every other character becomes a
NUL later filtered out; then hyphen-split, empty segments dropped,
hyphen-joined. -/
def slugify (text : String) : String :=
  let lowered := text.data.map Char.toLower
  let mapped := lowered.map (fun c =>
    if c.isAlphanum then c
    else if c.isWhitespace || c == '-' || c == '_' then '-'
    else '\x00')
  let filtered := mapped.filter (fun c => c != '\x00')
  ⟨intercalateL ['-']
    ((splitOnChar '-' filtered).filter (fun s => !s.isEmpty))⟩

/-- The slug computation exactly as the claim words it (for the refinement
comparison): lowercase, every maximal run of non-alphanumeric characters
replaced by a single hyphen, leading/trailing hyphens trimmed, empty
segments dropped — i.e. the maximal alphanumeric runs joined by hyphens. -/
def slugifySpecClaimed (text : String) : String :=
  ⟨intercalateL ['-'] (runsL Char.isAlphanum (text.data.map Char.toLower))⟩

/-- The slug computation as amended: lowercase; runs of whitespace, hyphens
and underscores collapse to a single hyphen; every other non-alphanumeric
character is removed; leading/trailing hyphens trimmed and empty segments
dropped. -/
def slugifySpecAmended (text : String) : String :=
  let cleaned := (text.data.map Char.toLower).filterMap (fun c =>
    if c.isAlphanum then some c
    else if c.isWhitespace || c == '-' || c == '_' then some '-'
    else none)
  ⟨intercalateL ['-'] (runsL (fun c => c != '-') cleaned)⟩

/-! ## `veneer-adapters/src/registry.rs` — component registry -/

/-- `str::to_lowercase` (ASCII model). -/
def toLowerS (s : String) : String := ⟨s.data.map Char.toLower⟩

/-- `registry.rs` `CachedComponent` (`structure'` models the Rust field
`structure`, a Lean keyword; `source_path` is kept as a plain string). -/
structure CachedComponent where
  name : String
  source_path : String
  structure' : ComponentStructure
  source : String
deriving Repr, DecidableEq

/-- `registry.rs` `ComponentRegistry`: the `HashMap<String, CachedComponent>`
keyed by lowercased name, modelled as an association list. -/
structure ComponentRegistry where
  components : List (String × CachedComponent)
deriving Repr, DecidableEq

/-- `registry.rs` `ComponentRegistry::get`: case-insensitive lookup. -/
def ComponentRegistry.get (reg : ComponentRegistry) (name : String) :
    Option CachedComponent :=
  List.lookup (toLowerS name) reg.components

/-- `registry.rs` `ComponentRegistry::contains`. -/
def ComponentRegistry.contains (reg : ComponentRegistry) (name : String) : Bool :=
  (List.lookup (toLowerS name) reg.components).isSome

/-! ## Claim C5 -/

/-- C5: a source that, after trimming leading whitespace, does not begin with
the three-dash marker, parses to no frontmatter with the original input
returned unchanged. -/
theorem c5_no_marker_is_identity (source : String)
    (h : startsWithL (trimStartS source).data "---".data = false) :
    extract_frontmatter source = Except.ok (none, source) := by
  unfold extract_frontmatter
  simp [h]

/-- Witness for C5 at a marker-free input. -/
theorem c5_no_marker_is_identity_witness :
    extract_frontmatter "# Just Markdown" = Except.ok (none, "# Just Markdown") :=
  c5_no_marker_is_identity "# Just Markdown" (by decide)

/-! ## Claim C9 -/

/-- C9 counterexample: a syntactically well-formed key/value header that
lacks a `title` field does not parse successfully — `extract_frontmatter`
fails with the malformed-header (invalid YAML) error, because the `title`
field of `Frontmatter` has no serde default. -/
theorem c9_missing_title_is_enforced :
    extract_frontmatter "---\ndescription: hi\n---\nrest" =
      Except.error (FrontmatterError.invalidYaml "missing field title") := by
  decide

/-- C9 as amended: `title` is required and enforced at this layer — for every
header region whose lines are well-formed key/value content but contain no
`title` key, deserialization fails with the missing-title error (which
`extract_frontmatter` surfaces as its malformed-header condition). -/
theorem c9_amended_title_required (yaml : String)
    (pairs : List (String × String))
    (hwf : parseYamlPairs (rustLines yaml.data) = Except.ok pairs)
    (hno : List.lookup "title" pairs = none) :
    frontmatterFromYaml yaml = Except.error "missing field title" := by
  unfold frontmatterFromYaml
  rw [hwf]
  simp only []
  rw [hno]

/-- Witness for the amended C9 at a concrete titleless header. -/
theorem c9_amended_title_required_witness :
    frontmatterFromYaml "description: hi\norder: 3" =
      Except.error "missing field title" :=
  c9_amended_title_required "description: hi\norder: 3"
    [("description", "hi"), ("order", "3")] (by decide) (by decide)

/-! ## Claim C10 -/

/-- C10: `contains` answers exactly whether `get` returns a cached
component, and both case-fold the queried name, so lookups that agree after
case folding agree. -/
theorem c10_contains_iff_get (reg : ComponentRegistry) (n1 n2 : String)
    (h : toLowerS n1 = toLowerS n2) :
    (reg.contains n1 = (reg.get n1).isSome) ∧
    reg.get n1 = reg.get n2 ∧
    reg.contains n1 = reg.contains n2 := by
  unfold ComponentRegistry.contains ComponentRegistry.get
  rw [h]
  exact ⟨rfl, rfl, rfl⟩

/-- Witness for C10 on a one-entry registry and case-variant names. -/
theorem c10_contains_iff_get_witness :
    let reg : ComponentRegistry :=
      { components := [("button",
          { name := "Button", source_path := "button.tsx"
            structure' :=
              { name := "Button", variant_lookup := [("a", "x")], size_lookup := []
                base_classes := "", disabled_classes := "d"
                default_variant := "a", default_size := "default"
                observed_attributes := [] }
            source := "src" })] }
    (reg.contains "Button" = (reg.get "Button").isSome) ∧
    reg.get "Button" = reg.get "BUTTON" ∧
    reg.contains "Button" = reg.contains "BUTTON" :=
  c10_contains_iff_get _ "Button" "BUTTON" (by decide)

/-! ## Claim C8 -/

/-- `runsL` on the empty list. -/
theorem runsL_nil (keep : Char → Bool) : runsL keep [] = [] := by
  rw [runsL]

/-- Unfolding `runsL` on a kept head. -/
theorem runsL_cons_pos (keep : Char → Bool) (c : Char) (cs : List Char)
    (h : keep c = true) :
    runsL keep (c :: cs) =
      (c :: cs.takeWhile keep) :: runsL keep (cs.dropWhile keep) := by
  rw [runsL]
  simp [h]

/-- Unfolding `runsL` on a dropped head. -/
theorem runsL_cons_neg (keep : Char → Bool) (c : Char) (cs : List Char)
    (h : keep c = false) :
    runsL keep (c :: cs) = runsL keep cs := by
  rw [runsL]
  simp [h]

/-- The head of a `dropWhile` result fails the predicate. -/
theorem dropWhile_head_false (p : Char → Bool) :
    ∀ (l : List Char) (d : Char) (rest : List Char),
      l.dropWhile p = d :: rest → p d = false := by
  intro l
  induction l with
  | nil => intro d rest h; simp [List.dropWhile] at h
  | cons c cs ih =>
    intro d rest h
    by_cases hc : p c
    · rw [List.dropWhile_cons_of_pos hc] at h
      exact ih d rest h
    · rw [List.dropWhile_cons_of_neg hc] at h
      cases h
      exact Bool.of_not_eq_true hc

/-- `splitOnCharAux` prepends the accumulator to the first segment. -/
theorem splitOnCharAux_acc (sep : Char) :
    ∀ (l : List Char) (acc : List Char),
      splitOnCharAux sep acc l =
        (acc.reverse ++ l.takeWhile (fun c => c != sep)) ::
          (match l.dropWhile (fun c => c != sep) with
           | [] => []
           | _ :: rest => splitOnChar sep rest) := by
  intro l
  induction l with
  | nil => intro acc; simp [splitOnCharAux, List.takeWhile, List.dropWhile]
  | cons c cs ih =>
    intro acc
    by_cases hc : c = sep
    · subst hc
      simp [splitOnCharAux, splitOnChar, List.takeWhile, List.dropWhile]
    · have hne : (c == sep) = false := by simp [hc]
      have hkeep : (c != sep) = true := by simp [hc]
      simp only [splitOnCharAux, hne, Bool.false_eq_true, if_false,
        List.takeWhile_cons, hkeep, if_true, List.dropWhile_cons, ih,
        List.reverse_cons, List.append_assoc, List.cons_append,
        List.nil_append]

/-- `splitOnChar` as head segment plus recursion past the first separator. -/
theorem splitOnChar_eq (sep : Char) (l : List Char) :
    splitOnChar sep l =
      (l.takeWhile (fun c => c != sep)) ::
        (match l.dropWhile (fun c => c != sep) with
         | [] => []
         | _ :: rest => splitOnChar sep rest) := by
  have h := splitOnCharAux_acc sep l []
  simpa [splitOnChar] using h

/-- Splitting on a separator and dropping empty segments yields exactly the
maximal separator-free runs. -/
theorem splitFilter_eq_runs (sep : Char) :
    ∀ (n : Nat) (l : List Char), l.length ≤ n →
      (splitOnChar sep l).filter (fun s => !s.isEmpty) =
        runsL (fun c => c != sep) l := by
  intro n
  induction n with
  | zero =>
    intro l h
    have : l = [] := List.length_eq_zero.mp (Nat.le_zero.mp h)
    subst this
    simp [splitOnChar, splitOnCharAux, runsL]
  | succ n ih =>
    intro l h
    cases l with
    | nil => simp [splitOnChar, splitOnCharAux, runsL]
    | cons a as =>
      by_cases ha : a = sep
      · have h1 : splitOnChar sep (a :: as) = [] :: splitOnChar sep as := by
          simp [splitOnChar, splitOnCharAux, ha]
        have h2 : runsL (fun c => c != sep) (a :: as) =
            runsL (fun c => c != sep) as :=
          runsL_cons_neg (fun c => c != sep) a as (by simp [ha])
        rw [h1, h2]
        rw [filterConsNeg (fun s => !s.isEmpty) [] _ (by decide)]
        exact ih as (by simp only [List.length_cons] at h; omega)
      · have hkeep : (a != sep) = true := by simp [ha]
        rw [splitOnChar_eq, runsL_cons_pos (fun c => c != sep) a as hkeep]
        rw [takeWhileConsPos (fun c => c != sep) a as hkeep,
          dropWhileConsPos (fun c => c != sep) a as hkeep]
        rw [filterConsPos (fun s => !s.isEmpty)
          (a :: as.takeWhile (fun c => c != sep)) _ (by simp)]
        congr 1
        cases hd : as.dropWhile (fun c => c != sep) with
        | nil =>
          show List.filter (fun s => !s.isEmpty) ([] : List (List Char)) =
            runsL (fun c => c != sep) ([] : List Char)
          simp [runsL_nil]
        | cons d rest =>
          show List.filter (fun s => !s.isEmpty) (splitOnChar sep rest) =
            runsL (fun c => c != sep) (d :: rest)
          have hdf : (d != sep) = false :=
            dropWhile_head_false _ as d rest hd
          have hlen : rest.length ≤ n := by
            have h2 : (as.dropWhile (fun c => c != sep)).length ≤ as.length :=
              lengthDropWhileLe _ as
            rw [hd] at h2
            simp only [List.length_cons] at h h2
            omega
          rw [runsL_cons_neg (fun c => c != sep) d rest hdf]
          exact ih rest hlen

/-- The NUL-marking map-and-filter of `slugify` agrees with the direct
keep/collapse/remove classification. -/
theorem slug_filter_eq_filterMap :
    ∀ l : List Char,
      ((l.map (fun c =>
          if c.isAlphanum then c
          else if c.isWhitespace || c == '-' || c == '_' then '-'
          else '\x00')).filter (fun c => c != '\x00')) =
        l.filterMap (fun c =>
          if c.isAlphanum then some c
          else if c.isWhitespace || c == '-' || c == '_' then some '-'
          else none) := by
  intro l
  induction l with
  | nil => simp
  | cons c cs ih =>
    simp only [List.map_cons, List.filterMap_cons]
    by_cases h1 : c.isAlphanum
    · have hnz : (c != '\x00') = true := by
        have hne : c ≠ '\x00' := by
          intro hh
          rw [hh] at h1
          simp [Char.isAlphanum, Char.isAlpha, Char.isUpper, Char.isLower,
            Char.isDigit] at h1
        simp [hne]
      rw [if_pos h1, if_pos h1,
        filterConsPos (fun x => x != '\x00') c _ hnz, ih]
    · by_cases h2 : c.isWhitespace || c == '-' || c == '_'
      · rw [if_neg h1, if_pos h2, if_neg h1, if_pos h2,
          filterConsPos (fun x => x != '\x00') '-' _ (by decide), ih]
      · rw [if_neg h1, if_neg h2, if_neg h1, if_neg h2,
          filterConsNeg (fun x => x != '\x00') '\x00' _ (by decide), ih]

/-- C8 counterexample: on `"a.b"` the code removes the dot
(`slugify "a.b" = "ab"`), while the claim's wording — every maximal run of
non-alphanumerics becomes a single hyphen — demands `"a-b"`. -/
theorem c8_interior_punctuation_removed :
    slugify "a.b" = "ab" ∧ slugifySpecClaimed "a.b" = "a-b" ∧
      slugify "a.b" ≠ slugifySpecClaimed "a.b" := by
  have h2 : slugifySpecClaimed "a.b" = "a-b" := by
    unfold slugifySpecClaimed
    rw [show ("a.b".data.map Char.toLower) = ['a', '.', 'b'] from by decide]
    rw [runsL_cons_pos Char.isAlphanum 'a' ['.', 'b'] (by decide)]
    rw [show (['.', 'b'].takeWhile Char.isAlphanum) = [] from by decide,
      show (['.', 'b'].dropWhile Char.isAlphanum) = ['.', 'b'] from by decide]
    rw [runsL_cons_neg Char.isAlphanum '.' ['b'] (by decide)]
    rw [runsL_cons_pos Char.isAlphanum 'b' [] (by decide)]
    rw [show (([] : List Char).takeWhile Char.isAlphanum) = [] from rfl,
      show (([] : List Char).dropWhile Char.isAlphanum) = [] from rfl]
    rw [runsL_nil]
    decide
  have h1 : slugify "a.b" = "ab" := by decide
  exact ⟨h1, h2, by rw [h1, h2]; decide⟩

/-- C8 as amended: the slug is the lowercased text in which runs of
whitespace, hyphens and underscores collapse to a single hyphen, every other
non-alphanumeric character is removed, and leading/trailing hyphens and
empty segments are dropped — `slugify` agrees with this description on every
input. -/
theorem c8_amended_slugify_spec (text : String) :
    slugify text = slugifySpecAmended text := by
  unfold slugify slugifySpecAmended
  simp only []
  rw [slug_filter_eq_filterMap]
  rw [splitFilter_eq_runs '-'
    ((text.data.map Char.toLower).filterMap _).length _ (Nat.le_refl _)]

/-! ## Claim C3 -/

/-- Per-character view of the escape pipeline. -/
def escMap (c : Char) : List Char :=
  if c = '&' then "&amp;".data
  else if c = '<' then "&lt;".data
  else if c = '>' then "&gt;".data
  else if c = '"' then "&quot;".data
  else if c = '\'' then "&#x27;".data
  else [c]

/-- No raw `<`, `>`, `"`, `'` anywhere, and every `&` opens one of the five
escape sequences emitted by `html_escape`. -/
def escapeOkAux : List Char → Bool
  | [] => true
  | c :: rest =>
    if c = '<' ∨ c = '>' ∨ c = '"' ∨ c = '\'' then false
    else if c = '&' then
      if startsWithL rest "amp;".data then escapeOkAux (rest.drop 4)
      else if startsWithL rest "lt;".data then escapeOkAux (rest.drop 3)
      else if startsWithL rest "gt;".data then escapeOkAux (rest.drop 3)
      else if startsWithL rest "quot;".data then escapeOkAux (rest.drop 5)
      else if startsWithL rest "#x27;".data then escapeOkAux (rest.drop 5)
      else false
    else escapeOkAux rest
termination_by l => l.length
decreasing_by
  all_goals simp only [List.length_cons, List.length_drop]
  all_goals omega

/-- Absence of unescaped escape-relevant characters in a string. -/
def noUnescaped (s : String) : Bool := escapeOkAux s.data

/-- `replaceChar` distributes over append. -/
theorem replaceChar_append (c : Char) (r : List Char) :
    ∀ l1 l2 : List Char,
      replaceChar c r (l1 ++ l2) = replaceChar c r l1 ++ replaceChar c r l2 := by
  intro l1 l2
  induction l1 with
  | nil => simp [replaceChar]
  | cons a as ih => simp [replaceChar, ih]

/-- `escChain` distributes over append. -/
theorem escChain_append (l1 l2 : List Char) :
    escChain (l1 ++ l2) = escChain l1 ++ escChain l2 := by
  simp [escChain, replaceChar_append]

/-- `escChain` on a single character is `escMap`. -/
theorem escChain_single (c : Char) : escChain [c] = escMap c := by
  by_cases h1 : c = '&'
  · subst h1; decide
  by_cases h2 : c = '<'
  · subst h2; decide
  by_cases h3 : c = '>'
  · subst h3; decide
  by_cases h4 : c = '"'
  · subst h4; decide
  by_cases h5 : c = '\''
  · subst h5; decide
  have e1 : (c == '&') = false := by simp [h1]
  have e2 : (c == '<') = false := by simp [h2]
  have e3 : (c == '>') = false := by simp [h3]
  have e4 : (c == '"') = false := by simp [h4]
  have e5 : (c == '\'') = false := by simp [h5]
  simp [escChain, escMap, replaceChar, e1, e2, e3, e4, e5, h1, h2, h3, h4, h5]

/-- `escChain` is the concatenation of the per-character escapes. -/
theorem escChain_eq_flatten :
    ∀ l : List Char, escChain l = (l.map escMap).flatten := by
  intro l
  induction l with
  | nil => simp [escChain, replaceChar]
  | cons c cs ih =>
    have : (c :: cs) = [c] ++ cs := rfl
    rw [this, escChain_append, escChain_single, List.map_append,
      List.flatten_append, ih]
    simp

/-- Prepending one escaped character preserves escape-wellformedness. -/
theorem escapeOk_escMap_prepend (c : Char) (tail : List Char)
    (h : escapeOkAux tail = true) : escapeOkAux (escMap c ++ tail) = true := by
  by_cases h1 : c = '&'
  · subst h1
    show escapeOkAux ('&' :: ('a' :: 'm' :: 'p' :: ';' :: tail)) = true
    rw [escapeOkAux]
    rw [if_neg (by decide), if_pos rfl,
      if_pos (by simp [startsWithL] : startsWithL
        ('a' :: 'm' :: 'p' :: ';' :: tail) "amp;".data = true)]
    exact h
  by_cases h2 : c = '<'
  · subst h2
    show escapeOkAux ('&' :: ('l' :: 't' :: ';' :: tail)) = true
    rw [escapeOkAux]
    rw [if_neg (by decide), if_pos rfl,
      if_neg (by simp [startsWithL] :
        ¬ startsWithL ('l' :: 't' :: ';' :: tail) "amp;".data = true),
      if_pos (by simp [startsWithL] : startsWithL
        ('l' :: 't' :: ';' :: tail) "lt;".data = true)]
    exact h
  by_cases h3 : c = '>'
  · subst h3
    show escapeOkAux ('&' :: ('g' :: 't' :: ';' :: tail)) = true
    rw [escapeOkAux]
    rw [if_neg (by decide), if_pos rfl,
      if_neg (by simp [startsWithL] :
        ¬ startsWithL ('g' :: 't' :: ';' :: tail) "amp;".data = true),
      if_neg (by simp [startsWithL] :
        ¬ startsWithL ('g' :: 't' :: ';' :: tail) "lt;".data = true),
      if_pos (by simp [startsWithL] : startsWithL
        ('g' :: 't' :: ';' :: tail) "gt;".data = true)]
    exact h
  by_cases h4 : c = '"'
  · subst h4
    show escapeOkAux ('&' :: ('q' :: 'u' :: 'o' :: 't' :: ';' :: tail)) = true
    rw [escapeOkAux]
    rw [if_neg (by decide), if_pos rfl,
      if_neg (by simp [startsWithL] :
        ¬ startsWithL ('q' :: 'u' :: 'o' :: 't' :: ';' :: tail) "amp;".data = true),
      if_neg (by simp [startsWithL] :
        ¬ startsWithL ('q' :: 'u' :: 'o' :: 't' :: ';' :: tail) "lt;".data = true),
      if_neg (by simp [startsWithL] :
        ¬ startsWithL ('q' :: 'u' :: 'o' :: 't' :: ';' :: tail) "gt;".data = true),
      if_pos (by simp [startsWithL] : startsWithL
        ('q' :: 'u' :: 'o' :: 't' :: ';' :: tail) "quot;".data = true)]
    exact h
  by_cases h5 : c = '\''
  · subst h5
    show escapeOkAux ('&' :: ('#' :: 'x' :: '2' :: '7' :: ';' :: tail)) = true
    rw [escapeOkAux]
    rw [if_neg (by decide), if_pos rfl,
      if_neg (by simp [startsWithL] :
        ¬ startsWithL ('#' :: 'x' :: '2' :: '7' :: ';' :: tail) "amp;".data = true),
      if_neg (by simp [startsWithL] :
        ¬ startsWithL ('#' :: 'x' :: '2' :: '7' :: ';' :: tail) "lt;".data = true),
      if_neg (by simp [startsWithL] :
        ¬ startsWithL ('#' :: 'x' :: '2' :: '7' :: ';' :: tail) "gt;".data = true),
      if_neg (by simp [startsWithL] :
        ¬ startsWithL ('#' :: 'x' :: '2' :: '7' :: ';' :: tail) "quot;".data = true),
      if_pos (by simp [startsWithL] : startsWithL
        ('#' :: 'x' :: '2' :: '7' :: ';' :: tail) "#x27;".data = true)]
    exact h
  · have hm : escMap c = [c] := by simp [escMap, h1, h2, h3, h4, h5]
    rw [hm]
    show escapeOkAux (c :: tail) = true
    rw [escapeOkAux]
    rw [if_neg (by tauto), if_neg h1]
    exact h

/-- Every `html_escape` output is escape-wellformed. -/
theorem noUnescaped_html_escape (s : String) :
    noUnescaped (html_escape s) = true := by
  show escapeOkAux (escChain s.data) = true
  rw [escChain_eq_flatten]
  induction s.data with
  | nil =>
    simp only [List.map_nil, List.flatten_nil]
    rw [escapeOkAux]
  | cons c cs ih =>
    rw [List.map_cons, List.flatten_cons]
    exact escapeOk_escMap_prepend c _ ih

/-- A member of a string list is an infix of its single-space join. -/
theorem mem_intercalate_infix (x : String) :
    ∀ l : List String, x ∈ l →
      x.data <:+: intercalateL [' '] (l.map String.data) := by
  intro l
  induction l with
  | nil => intro h; cases h
  | cons a rest ih =>
    intro h
    cases rest with
    | nil =>
      have hx : x = a := by
        cases h with
        | head => rfl
        | tail _ h2 => cases h2
      subst hx
      show x.data <:+: intercalateL [' '] [x.data]
      simp [intercalateL]
    | cons b rest2 =>
      rw [List.map_cons]
      rw [show intercalateL [' ']
          (a.data :: List.map String.data (b :: rest2)) =
        a.data ++ [' '] ++ intercalateL [' '] (List.map String.data (b :: rest2))
        from by rw [List.map_cons, intercalateL]]
      cases h with
      | head =>
        exact ⟨[], [' '] ++ intercalateL [' '] (List.map String.data (b :: rest2)),
          by simp⟩
      | tail _ hmem =>
        obtain ⟨u, v, huv⟩ := ih hmem
        exact ⟨a.data ++ [' '] ++ u, v, by rw [← huv]; simp⟩

/-- An infix stays an infix under surrounding appends. -/
theorem infix_wrap (x m pre suf : List Char) (h : x <:+: m) :
    x <:+: pre ++ m ++ suf := by
  obtain ⟨u, v, rfl⟩ := h
  exact ⟨pre ++ u, v ++ suf, by simp⟩

/-- C3: for every parsed inline usage, tag name and string-valued prop, the
attribute text emitted by `to_custom_element` for that prop is exactly
`key="html_escape value"`; it appears in the emitted element text, and the
escaped value contains no unescaped `&`, `<`, `>`, `"` or `'`. -/
theorem c3_string_props_escaped (jsx : InlineJsx) (tag k s : String)
    (h : (k, PropValue.string s) ∈ jsx.props) :
    (k ++ "=\"" ++ html_escape s ++ "\"") ∈ attrStrings jsx ∧
    noUnescaped (html_escape s) = true ∧
    (k ++ "=\"" ++ html_escape s ++ "\"").data <:+:
      (to_custom_element jsx tag).data := by
  have hmem : (k ++ "=\"" ++ html_escape s ++ "\"") ∈ attrStrings jsx :=
    List.mem_filterMap.mpr ⟨(k, PropValue.string s), h, rfl⟩
  refine ⟨hmem, noUnescaped_html_escape s, ?_⟩
  have hinter := mem_intercalate_infix _ _ hmem
  cases hatt : attrStrings jsx with
  | nil => rw [hatt] at hmem; cases hmem
  | cons a as =>
    rw [hatt] at hinter
    cases hch : jsx.children with
    | some children =>
      have hout : to_custom_element jsx tag =
          "<" ++ tag ++ (" " ++ String.mk (intercalateL [' ']
            ((a :: as).map String.data))) ++ ">" ++ children ++ "</" ++ tag ++ ">" := by
        unfold to_custom_element
        rw [hatt, hch]
        simp
      rw [hout]
      rw [show ("<" ++ tag ++ (" " ++ String.mk (intercalateL [' ']
            ((a :: as).map String.data))) ++ ">" ++ children ++ "</" ++ tag ++ ">").data =
          ("<".data ++ tag.data ++ [' ']) ++
            intercalateL [' '] ((a :: as).map String.data) ++
            (">".data ++ children.data ++ "</".data ++ tag.data ++ ">".data)
        from by simp]
      exact infix_wrap _ _ _ _ hinter
    | none =>
      have hout : to_custom_element jsx tag =
          "<" ++ tag ++ (" " ++ String.mk (intercalateL [' ']
            ((a :: as).map String.data))) ++ "></" ++ tag ++ ">" := by
        unfold to_custom_element
        rw [hatt, hch]
        simp
      rw [hout]
      rw [show ("<" ++ tag ++ (" " ++ String.mk (intercalateL [' ']
            ((a :: as).map String.data))) ++ "></" ++ tag ++ ">").data =
          ("<".data ++ tag.data ++ [' ']) ++
            intercalateL [' '] ((a :: as).map String.data) ++
            ("></".data ++ tag.data ++ ">".data)
        from by simp]
      exact infix_wrap _ _ _ _ hinter

/-- Witness for C3 at a concrete usage whose prop value holds all five
special characters. -/
theorem c3_string_props_escaped_witness :
    let jsx : InlineJsx :=
      { component := "Button"
        props := [("title", PropValue.string "a<b&c\"d'e>f")]
        children := none
        self_closing := true }
    ("title" ++ "=\"" ++ html_escape "a<b&c\"d'e>f" ++ "\"") ∈ attrStrings jsx ∧
    noUnescaped (html_escape "a<b&c\"d'e>f") = true ∧
    ("title" ++ "=\"" ++ html_escape "a<b&c\"d'e>f" ++ "\"").data <:+:
      (to_custom_element jsx "button-preview").data :=
  c3_string_props_escaped _ "button-preview" "title" "a<b&c\"d'e>f"
    (by decide)

/-! ## Claim C6 (amended part) -/

/-- takeWhile/dropWhile on an append that stops at the head of `r`. -/
theorem takeWhile_append_stop (p : Char → Bool) :
    ∀ (l r : List Char), (∀ c ∈ l, p c = true) →
      (∀ d rest, r = d :: rest → p d = false) →
      (l ++ r).takeWhile p = l ∧ (l ++ r).dropWhile p = r := by
  intro l r hall hhead
  induction l with
  | nil =>
    simp only [List.nil_append]
    cases r with
    | nil => simp [List.takeWhile, List.dropWhile]
    | cons d rest =>
      have := hhead d rest rfl
      simp [List.takeWhile_cons, List.dropWhile_cons, this]
  | cons a as ih =>
    have ha : p a = true := hall a (by simp)
    have ih2 := ih (fun c hc => hall c (by simp [hc]))
    simp only [List.cons_append, takeWhileConsPos p a _ ha,
      dropWhileConsPos p a _ ha]
    exact ⟨by rw [ih2.1], ih2.2⟩

/-- `ENTRY_RE` match at a quoted entry `a: 'w'`. -/
theorem matchEntryAt_a_quoted (w rest' : List Char)
    (h : ∀ c ∈ w, (c ≠ '\'' ∧ c ≠ '"')) :
    matchEntryAt ('a' :: ':' :: ' ' :: '\'' :: (w ++ ('\'' :: rest'))) =
      some ("a", ⟨w⟩, rest') := by
  have hstop := takeWhile_append_stop (fun ch => ch ≠ '\'' && ch ≠ '"') w ('\'' :: rest')
    (fun c hc => by simp [(h c hc).1, (h c hc).2])
    (fun d rest hd => by cases hd; simp)
  show (match (w ++ ('\'' :: rest')).dropWhile (fun ch => ch ≠ '\'' && ch ≠ '"') with
    | q2 :: s6 =>
      if q2 == '\'' || q2 == '"' then
        some ((⟨['a']⟩ : String),
          (⟨(w ++ ('\'' :: rest')).takeWhile (fun ch => ch ≠ '\'' && ch ≠ '"')⟩ : String), s6)
      else none
    | [] => (none : Option (String × String × List Char)))
    = some ("a", ⟨w⟩, rest')
  rw [hstop.1, hstop.2]
  simp

/-- `entryCapturesAux` on the empty list, any fuel. -/
theorem eca_nil : ∀ fuel, entryCapturesAux fuel [] = [] := by
  intro fuel; cases fuel <;> rfl

/-- `recordCapturesAux` on the empty list, any fuel. -/
theorem rca_nil : ∀ fuel, recordCapturesAux fuel [] = [] := by
  intro fuel; cases fuel <;> rfl

/-- One skipping step of the entry scan. -/
theorem eca_step_none (fuel : Nat) (c : Char) (cs : List Char)
    (h : matchEntryAt (c :: cs) = none) :
    entryCapturesAux (fuel + 1) (c :: cs) = entryCapturesAux fuel cs := by
  simp only [entryCapturesAux, h]

/-- One capturing step of the entry scan. -/
theorem eca_step_some (fuel : Nat) (c : Char) (cs : List Char)
    (n v : String) (rest : List Char)
    (h : matchEntryAt (c :: cs) = some (n, v, rest)) :
    entryCapturesAux (fuel + 1) (c :: cs) = (n, v) :: entryCapturesAux fuel rest := by
  simp only [entryCapturesAux, h]

/-- One capturing step of the record scan. -/
theorem rca_step_some (fuel : Nat) (c : Char) (cs : List Char)
    (n b : String) (rest : List Char)
    (h : matchRecordAt (c :: cs) = some (n, b, rest)) :
    recordCapturesAux (fuel + 1) (c :: cs) = (n, b) :: recordCapturesAux fuel rest := by
  simp only [recordCapturesAux, h]

/-- A successful entry match consumes at least one character. -/
theorem matchEntryAt_shrink (c : Char) (cs : List Char) (n v : String)
    (rest : List Char) (h : matchEntryAt (c :: cs) = some (n, v, rest)) :
    rest.length ≤ cs.length := by
  simp only [matchEntryAt] at h
  by_cases hw : isWordChar c
  · rw [if_pos hw] at h
    have l1 : (cs.dropWhile isWordChar).length ≤ cs.length := lengthDropWhileLe _ _
    have l2 : ((cs.dropWhile isWordChar).dropWhile Char.isWhitespace).length ≤
        (cs.dropWhile isWordChar).length := lengthDropWhileLe _ _
    split at h
    case _ s3 heq =>
      have hs3 : s3.length + 1 ≤ cs.length := by
        have := congrArg List.length heq
        simp only [List.length_cons] at this
        omega
      have l3 : (s3.dropWhile Char.isWhitespace).length ≤ s3.length :=
        lengthDropWhileLe _ _
      split at h
      case _ q s5 heq2 =>
        have hs5 : s5.length + 1 ≤ s3.length := by
          have := congrArg List.length heq2
          simp only [List.length_cons] at this
          omega
        split at h
        · have l4 : (s5.dropWhile (fun ch => ch ≠ '\'' && ch ≠ '"')).length ≤
              s5.length := lengthDropWhileLe _ _
          split at h
          case _ q2 s6 heq3 =>
            have hs6 : s6.length + 1 ≤ s5.length := by
              have := congrArg List.length heq3
              simp only [List.length_cons] at this
              omega
            split at h
            · cases h
              omega
            · cases h
          case _ => cases h
        · cases h
      case _ => cases h
    case _ => cases h
  · rw [if_neg hw] at h
    cases h

/-- The entry scan is fuel-irrelevant above the list length. -/
theorem eca_fuel : ∀ (f1 f2 : Nat) (l : List Char), l.length < f1 → l.length < f2 →
    entryCapturesAux f1 l = entryCapturesAux f2 l := by
  intro f1
  induction f1 with
  | zero => intro f2 l h1 _; omega
  | succ f1 ih =>
    intro f2 l h1 h2
    cases l with
    | nil => rw [eca_nil, eca_nil]
    | cons c cs =>
      obtain ⟨m, rfl⟩ : ∃ m, f2 = m + 1 := ⟨f2 - 1, by omega⟩
      cases hm : matchEntryAt (c :: cs) with
      | none =>
        rw [eca_step_none f1 c cs hm, eca_step_none m c cs hm]
        exact ih m cs (by simp only [List.length_cons] at h1; omega)
          (by simp only [List.length_cons] at h2; omega)
      | some t =>
        obtain ⟨n, v, rest⟩ := t
        rw [eca_step_some f1 c cs n v rest hm, eca_step_some m c cs n v rest hm]
        have hs := matchEntryAt_shrink c cs n v rest hm
        rw [ih m rest (by simp only [List.length_cons] at h1; omega)
          (by simp only [List.length_cons] at h2; omega)]

/-- Skipping step with fuel renormalization. -/
theorem eca_skip (fuel : Nat) (c : Char) (cs : List Char)
    (h : matchEntryAt (c :: cs) = none) (hf : cs.length + 1 < fuel) :
    entryCapturesAux fuel (c :: cs) = entryCapturesAux (cs.length + 1) cs := by
  obtain ⟨m, rfl⟩ : ∃ m, fuel = m + 1 := ⟨fuel - 1, by omega⟩
  rw [eca_step_none m c cs h]
  exact eca_fuel m (cs.length + 1) cs (by omega) (by omega)

/-- Capturing step with fuel renormalization. -/
theorem eca_take (fuel : Nat) (c : Char) (cs : List Char) (n v : String)
    (rest : List Char) (h : matchEntryAt (c :: cs) = some (n, v, rest))
    (hf : cs.length + 1 < fuel) :
    entryCapturesAux fuel (c :: cs) =
      (n, v) :: entryCapturesAux (rest.length + 1) rest := by
  obtain ⟨m, rfl⟩ : ∃ m, fuel = m + 1 := ⟨fuel - 1, by omega⟩
  rw [eca_step_some m c cs n v rest h]
  have hs := matchEntryAt_shrink c cs n v rest h
  rw [eca_fuel m (rest.length + 1) rest (by omega) (by omega)]
theorem matchRecordAt_dup (v1 v2 : List Char)
    (h1 : ∀ c ∈ v1, c ≠ '\'' ∧ c ≠ '"' ∧ c ≠ '\x7d')
    (h2 : ∀ c ∈ v2, c ≠ '\'' ∧ c ≠ '"' ∧ c ≠ '\x7d') :
    matchRecordAt
      ('c' :: 'o' :: 'n' :: 's' :: 't' :: ' ' :: 'v' :: 'a' :: 'r' :: 'i' :: 'a' :: 'n' :: 't' :: 'C' :: 'l' :: 'a' :: 's' :: 's' :: 'e' :: 's' :: ' ' :: '=' :: ' ' :: '\x7b' :: ' ' :: 'a' :: ':' :: ' ' :: '\'' :: (v1 ++ ('\'' :: ',' :: ' ' :: 'a' :: ':' :: ' ' :: '\'' :: (v2 ++ ('\'' :: ' ' :: '\x7d' :: []))))) =
    some ("variantClasses",
      ⟨' ' :: 'a' :: ':' :: ' ' :: '\'' :: (v1 ++ ('\'' :: ',' :: ' ' :: 'a' :: ':' :: ' ' :: '\'' :: (v2 ++ ('\'' :: ' ' :: []))))⟩,
      []) := by
  have hall : ∀ c ∈ (' ' :: 'a' :: ':' :: ' ' :: '\'' :: (v1 ++ ('\'' :: ',' :: ' ' :: 'a' :: ':' :: ' ' :: '\'' :: (v2 ++ ('\'' :: ' ' :: []))))), decide (c ≠ '\x7d') = true := by
    intro c hc
    simp only [List.mem_cons, List.mem_append] at hc
    rcases hc with rfl | rfl | rfl | rfl | rfl | hv | rfl | rfl | rfl | rfl | rfl | rfl | rfl | hv | rfl | rfl | h0
    · decide
    · decide
    · decide
    · decide
    · decide
    · simp [(h1 c hv).2.2]
    · decide
    · decide
    · decide
    · decide
    · decide
    · decide
    · decide
    · simp [(h2 c hv).2.2]
    · decide
    · decide
    · cases h0
  have hstop := takeWhile_append_stop (fun ch => ch ≠ '\x7d')
    (' ' :: 'a' :: ':' :: ' ' :: '\'' :: (v1 ++ ('\'' :: ',' :: ' ' :: 'a' :: ':' :: ' ' :: '\'' :: (v2 ++ ('\'' :: ' ' :: [])))))
    ['\x7d'] hall (fun d rest hd => by cases hd; decide)
  have hsplit : (' ' :: 'a' :: ':' :: ' ' :: '\'' :: (v1 ++ ('\'' :: ',' :: ' ' :: 'a' :: ':' :: ' ' :: '\'' :: (v2 ++ ('\'' :: ' ' :: '\x7d' :: []))))) =
      (' ' :: 'a' :: ':' :: ' ' :: '\'' :: (v1 ++ ('\'' :: ',' :: ' ' :: 'a' :: ':' :: ' ' :: '\'' :: (v2 ++ ('\'' :: ' ' :: []))))) ++ ['\x7d'] := by
    simp
  show (match (' ' :: 'a' :: ':' :: ' ' :: '\'' :: (v1 ++ ('\'' :: ',' :: ' ' :: 'a' :: ':' :: ' ' :: '\'' :: (v2 ++ ('\'' :: ' ' :: '\x7d' :: []))))).dropWhile (fun ch => ch ≠ '\x7d') with
    | '\x7d' :: s10 =>
      some (("variantClasses" : String),
        (⟨(' ' :: 'a' :: ':' :: ' ' :: '\'' :: (v1 ++ ('\'' :: ',' :: ' ' :: 'a' :: ':' :: ' ' :: '\'' :: (v2 ++ ('\'' :: ' ' :: '\x7d' :: []))))).takeWhile (fun ch => ch ≠ '\x7d')⟩ : String), s10)
    | _ => (none : Option (String × String × List Char)))
    = some ("variantClasses",
      ⟨' ' :: 'a' :: ':' :: ' ' :: '\'' :: (v1 ++ ('\'' :: ',' :: ' ' :: 'a' :: ':' :: ' ' :: '\'' :: (v2 ++ ('\'' :: ' ' :: []))))⟩, [])
  rw [hsplit, hstop.1, hstop.2]
  rfl


/-- C6 as amended: for quote- and brace-free values, a `variantClasses`
literal that repeats the key `a` extracts to both entries in insertion
order — no last-write deduplication takes place. -/
theorem c6_amended_duplicates_kept (v1 v2 : String)
    (h1 : ∀ c ∈ v1.data, c ≠ '\'' ∧ c ≠ '"' ∧ c ≠ '\x7d')
    (h2 : ∀ c ∈ v2.data, c ≠ '\'' ∧ c ≠ '"' ∧ c ≠ '\x7d') :
    extract_record
      ("const variantClasses = \x7b a: '" ++ v1 ++ "', a: '" ++ v2 ++ "' \x7d")
      "variantClasses" = Except.ok [("a", v1), ("a", v2)] := by
  have hq1 : ∀ c ∈ v1.data, c ≠ '\'' ∧ c ≠ '"' :=
    fun c hc => ⟨(h1 c hc).1, (h1 c hc).2.1⟩
  have hq2 : ∀ c ∈ v2.data, c ≠ '\'' ∧ c ≠ '"' :=
    fun c hc => ⟨(h2 c hc).1, (h2 c hc).2.1⟩
  have hmr := matchRecordAt_dup v1.data v2.data h1 h2
  have hsrc : ("const variantClasses = \x7b a: '" ++ v1 ++ "', a: '" ++ v2 ++ "' \x7d").data =
      'c' :: 'o' :: 'n' :: 's' :: 't' :: ' ' :: 'v' :: 'a' :: 'r' :: 'i' :: 'a' :: 'n' :: 't' :: 'C' :: 'l' :: 'a' :: 's' :: 's' :: 'e' :: 's' :: ' ' :: '=' :: ' ' :: '\x7b' :: ' ' :: 'a' :: ':' :: ' ' :: '\'' :: (v1.data ++ ('\'' :: ',' :: ' ' :: 'a' :: ':' :: ' ' :: '\'' :: (v2.data ++ ('\'' :: ' ' :: '\x7d' :: [])))) := by
    simp only [String.data_append, List.append_assoc]
    rfl
  unfold extract_record
  rw [hsrc]
  rw [rca_step_some _ _ _ _ _ _ hmr]
  rw [rca_nil]
  rw [show ([("variantClasses",
      (⟨' ' :: 'a' :: ':' :: ' ' :: '\'' :: (v1.data ++ ('\'' :: ',' :: ' ' :: 'a' :: ':' :: ' ' :: '\'' :: (v2.data ++ ('\'' :: ' ' :: []))))⟩ : String))].filter
        (fun p => p.1 == "variantClasses")) =
      [("variantClasses",
        (⟨' ' :: 'a' :: ':' :: ' ' :: '\'' :: (v1.data ++ ('\'' :: ',' :: ' ' :: 'a' :: ':' :: ' ' :: '\'' :: (v2.data ++ ('\'' :: ' ' :: []))))⟩ : String))]
    from by simp]
  simp only [List.map_cons, List.map_nil, List.flatten_cons, List.flatten_nil,
    List.append_nil]
  rw [eca_skip _ ' ' _ rfl (by simp only [List.length_cons]; omega)]
  rw [eca_take _ 'a' _ _ _ _
    (matchEntryAt_a_quoted v1.data
      (',' :: ' ' :: 'a' :: ':' :: ' ' :: '\'' :: (v2.data ++ ('\'' :: ' ' :: []))) hq1)
    (by simp only [List.length_cons]; omega)]
  rw [eca_skip _ ',' _ rfl (by simp only [List.length_cons]; omega)]
  rw [eca_skip _ ' ' _ rfl (by simp only [List.length_cons]; omega)]
  rw [eca_take _ 'a' _ _ _ _
    (matchEntryAt_a_quoted v2.data (' ' :: []) hq2)
    (by simp only [List.length_cons]; omega)]
  rw [eca_skip _ ' ' _ rfl (by simp only [List.length_cons]; omega)]
  rw [eca_nil]
/-- Witness for the amended C6 at concrete values. -/
theorem c6_amended_duplicates_kept_witness :
    extract_record "const variantClasses = \x7b a: 'x', a: 'y' \x7d"
      "variantClasses" = Except.ok [("a", "x"), ("a", "y")] :=
  c6_amended_duplicates_kept "x" "y" (by decide) (by decide)

/-! ## `veneer-adapters/src/generator.rs` — web-component generator -/

/-- `generator.rs` `to_pascal_case`: split on hyphens, capitalize each
segment, concatenate. -/
def to_pascal_case (s : String) : String :=
  ⟨((splitOnChar '-' s.data).map (fun part =>
    match part with
    | [] => []
    | c :: cs => c.toUpper :: cs)).flatten⟩

/-- `generator.rs` `escape_string`: backslash, single quote and newline
escaped, in that order. -/
def escape_string (s : String) : String :=
  ⟨replaceChar '\n' ['\\', 'n']
    (replaceChar '\'' ['\\', '\'']
      (replaceChar '\\' ['\\', '\\'] s.data))⟩

/-- `generator.rs` `generate_web_component`: the full custom-element
template, transcribed from the `format!` literal. -/
def generate_web_component (tag_name : String) (structure' : ComponentStructure) :
    String :=
  let class_name := to_pascal_case tag_name
  let variant_entries : String :=
    ⟨intercalateL ['\n'] ((structure'.variant_lookup.map (fun kv =>
      "  " ++ kv.1 ++ ": '" ++ escape_string kv.2 ++ "',")).map String.data)⟩
  let size_entries : String :=
    ⟨intercalateL ['\n'] ((structure'.size_lookup.map (fun kv =>
      "  " ++ kv.1 ++ ": '" ++ escape_string kv.2 ++ "',")).map String.data)⟩
  let attrs_array : String :=
    ⟨intercalateL [',', ' '] ((structure'.observed_attributes.map (fun a =>
      "'" ++ a ++ "'")).map String.data)⟩
  let name := structure'.name
  let base_classes := escape_string structure'.base_classes
  let disabled_classes := escape_string structure'.disabled_classes
  let default_variant := structure'.default_variant
  let default_size := structure'.default_size
  "/**\n * " ++
    class_name ++
    " - Generated Web Component Preview\n * Auto-generated from " ++
    name ++
    " component\n * Tag: <" ++
    tag_name ++
    ">\n */\n\nconst variantClasses = \x7b\n" ++
    variant_entries ++
    "\n\x7d;\n\nconst sizeClasses = \x7b\n" ++
    size_entries ++
    "\n\x7d;\n\nconst baseClasses = '" ++
    base_classes ++
    "';\nconst disabledClasses = '" ++
    disabled_classes ++
    "';\n\n// Cache for adopted stylesheets (all page stylesheets)\n" ++
    "let cachedSheets = null;\n\nexport class " ++
    class_name ++
    " extends HTMLElement \x7b\n  static observedAttributes = [" ++
    attrs_array ++
    "];\n\n  #button = null;\n\n  constructor() \x7b\n    super();\n" ++
    "    this.attachShadow(\x7b mode: 'open' \x7d);\n  \x7d\n\n  connectedCallback() \x7b\n" ++
    "    this.#adoptStyles();\n    this.#render();\n  \x7d\n\n" ++
    "  attributeChangedCallback() \x7b\n    this.#render();\n  \x7d\n\n" ++
    "  #adoptStyles() \x7b\n    if (!this.shadowRoot) return;\n\n" ++
    "    // Use cached sheets if available\n    if (cachedSheets) \x7b\n" ++
    "      this.shadowRoot.adoptedStyleSheets = cachedSheets;\n" ++
    "      return;\n    \x7d\n\n    // Find and adopt page stylesheets\n" ++
    "    const sheets = [];\n" ++
    "    for (const sheet of document.styleSheets) \x7b\n      try \x7b\n" ++
    "        // Clone the stylesheet for adoption\n" ++
    "        const clone = new CSSStyleSheet();\n" ++
    "        const rules = Array.from(sheet.cssRules).map(r => r.cssText).join('\\\\n');\n" ++
    "        clone.replaceSync(rules);\n        sheets.push(clone);\n" ++
    "      \x7d catch (e) \x7b\n" ++
    "        // Cross-origin stylesheets can't be accessed, skip them\n" ++
    "      \x7d\n    \x7d\n\n    if (sheets.length > 0) \x7b\n" ++
    "      cachedSheets = sheets; // Cache all sheets\n" ++
    "      this.shadowRoot.adoptedStyleSheets = sheets;\n    \x7d\n  \x7d\n\n" ++
    "  #render() \x7b\n    if (!this.shadowRoot) return;\n\n" ++
    "    const variant = this.getAttribute('variant') || '" ++
    default_variant ++
    "';\n    const size = this.getAttribute('size') || '" ++
    default_size ++
    "';\n    const disabled = this.hasAttribute('disabled');\n" ++
    "    const loading = this.hasAttribute('loading');\n\n" ++
    "    const isDisabled = disabled || loading;\n\n    const classes = [\n" ++
    "      baseClasses,\n      variantClasses[variant] ?? variantClasses['" ++
    default_variant ++
    "'],\n      sizeClasses[size] ?? sizeClasses['" ++
    default_size ++
    "'],\n      isDisabled ? disabledClasses : '',\n    ]\n" ++
    "      .filter(Boolean)\n      .join(' ');\n\n" ++
    "    // Clear existing button if any\n    if (this.#button) \x7b\n" ++
    "      this.#button.remove();\n    \x7d\n\n" ++
    "    this.#button = document.createElement('button');\n" ++
    "    this.#button.type = 'button';\n" ++
    "    this.#button.className = classes;\n" ++
    "    this.#button.disabled = isDisabled;\n\n    if (isDisabled) \x7b\n" ++
    "      this.#button.setAttribute('aria-disabled', 'true');\n    \x7d\n" ++
    "    if (loading) \x7b\n" ++
    "      this.#button.setAttribute('aria-busy', 'true');\n    \x7d\n\n" ++
    "    if (loading) \x7b\n      const span = document.createElement('span');\n" ++
    "      span.setAttribute('aria-hidden', 'true');\n" ++
    "      span.textContent = 'Loading...';\n" ++
    "      this.#button.appendChild(span);\n    \x7d else \x7b\n" ++
    "      // Use slot for content\n" ++
    "      const slot = document.createElement('slot');\n" ++
    "      this.#button.appendChild(slot);\n    \x7d\n\n" ++
    "    this.shadowRoot.appendChild(this.#button);\n  \x7d\n\x7d\n\n" ++
    "// Register the custom element\n" ++
    "if (typeof customElements !== 'undefined') \x7b\n  customElements.define('" ++
    tag_name ++
    "', " ++
    class_name ++
    ");\n\x7d\n\nexport default " ++
    class_name ++
    ";\n"

/-! ## `veneer-adapters/src/react.rs` — adapter transform -/

/-- Push each whitespace-separated class of `s` not yet present (the
`classes_used` accumulation of `ReactAdapter::transform`). -/
def pushClasses (acc : List String) (s : String) : List String :=
  (wordsL s.data).foldl (fun acc w =>
    if acc.contains (⟨w⟩ : String) then acc else acc ++ [⟨w⟩]) acc

/-- The `TransformedBlock` built by `ReactAdapter::transform` on a
successfully extracted structure: base, variant, size and disabled classes
accumulated with in-order dedup, plus the generated component text. -/
def transformedOf (structure' : ComponentStructure) (tag_name : String) :
    TransformedBlock :=
  let classes_used := pushClasses [] structure'.base_classes
  let classes_used := structure'.variant_lookup.foldl
    (fun acc kv => pushClasses acc kv.2) classes_used
  let classes_used := structure'.size_lookup.foldl
    (fun acc kv => pushClasses acc kv.2) classes_used
  let classes_used := pushClasses classes_used structure'.disabled_classes
  { web_component := generate_web_component tag_name structure'
    tag_name := tag_name
    classes_used := classes_used
    attributes := structure'.observed_attributes }

/-- `react.rs` `ReactAdapter::transform` (the `TransformContext` carries
only import mappings, unused here). -/
def ReactAdapter.transform (source tag_name : String) :
    Except TransformError TransformedBlock :=
  match extract_structure source with
  | Except.error e => Except.error e
  | Except.ok structure' => Except.ok (transformedOf structure' tag_name)

/-! ## `veneer-adapters/src/registry.rs` — artifact generation -/

/-- `registry.rs` `RegistryError`. -/
inductive RegistryError where
  | directoryNotFound : String → RegistryError
  | componentNotFound : String → RegistryError
  | parseError : String → RegistryError
deriving Repr, DecidableEq

/-- `registry.rs` `ComponentRegistry::generate_web_component`.  The Rust code
collects the deduplicated classes into a `HashSet` whose iteration order is
unspecified; the model keeps first-insertion order. -/
def ComponentRegistry.generateWebComponent (reg : ComponentRegistry)
    (component_name tag_name : String) :
    Except RegistryError TransformedBlock :=
  match reg.get component_name with
  | none => Except.error (RegistryError.componentNotFound component_name)
  | some cached => Except.ok (transformedOf cached.structure' tag_name)

/-! ## `veneer-mdx/src/codeblock.rs` — code blocks -/

/-- `codeblock.rs` `Language`. -/
inductive Language where
  | tsx | jsx | typescript | javascript | vue | svelte
  | html | css | json | bash | unknown
deriving Repr, DecidableEq

/-- `codeblock.rs` `Language::from_info`: case-insensitive first
whitespace-separated token (`split_whitespace().next().unwrap_or("")`). -/
def Language.from_info (info : String) : Language :=
  let lang : String :=
    ⟨(info.data.dropWhile Char.isWhitespace).takeWhile
      (fun c => !c.isWhitespace)⟩
  match toLowerS lang with
  | "tsx" => Language.tsx
  | "jsx" => Language.jsx
  | "ts" => Language.typescript
  | "typescript" => Language.typescript
  | "js" => Language.javascript
  | "javascript" => Language.javascript
  | "vue" => Language.vue
  | "svelte" => Language.svelte
  | "html" => Language.html
  | "css" => Language.css
  | "json" => Language.json
  | "bash" => Language.bash
  | "sh" => Language.bash
  | "shell" => Language.bash
  | _ => Language.unknown

/-- `codeblock.rs` `Language::is_transformable`. -/
def Language.is_transformable : Language → Bool
  | Language.tsx => true
  | Language.jsx => true
  | _ => false

/-- `codeblock.rs` `BlockMode`. -/
inductive BlockMode where
  | live | editable | source | preview
deriving Repr, DecidableEq

/-- `codeblock.rs` `BlockMode::from_info`: substring search, first match
wins, `source` is the fallback. -/
def BlockMode.from_info (info : String) : BlockMode :=
  let lower := toLowerS info
  if containsSub lower.data "live".data then BlockMode.live
  else if containsSub lower.data "editable".data then BlockMode.editable
  else if containsSub lower.data "preview".data then BlockMode.preview
  else BlockMode.source

/-- `codeblock.rs` `CodeBlock`. -/
structure CodeBlock where
  id : String
  language : Language
  mode : BlockMode
  source : String
  line_number : Nat
  filename : Option String
deriving Repr, DecidableEq

/-- `codeblock.rs` `CodeBlock::new`: the id is `block-<line>`. -/
def CodeBlock.new (language : Language) (mode : BlockMode) (source : String)
    (line_number : Nat) : CodeBlock :=
  { id := "block-" ++ Nat.repr line_number
    language := language
    mode := mode
    source := source
    line_number := line_number
    filename := none }

/-- `codeblock.rs` `CodeBlock::is_live`. -/
def CodeBlock.is_live (b : CodeBlock) : Bool :=
  b.mode == BlockMode.live && b.language.is_transformable

/-- Strip all leading and trailing occurrences of `q`
(`str::trim_matches`). -/
def trimMatchesL (q : Char) (l : List Char) : List Char :=
  ((l.dropWhile (· == q)).reverse.dropWhile (· == q)).reverse

/-- `codeblock.rs` `extract_filename`: `filename="..."` first, then an
unquoted `file=...` terminated at whitespace. -/
def extract_filename (info : String) : Option String :=
  match findSub "filename=\"".data info.data with
  | some start =>
    let rest := info.data.drop (start + 10)
    (match findSub ['"'] rest with
     | some e => some ⟨rest.take e⟩
     | none => fileEq info)
  | none => fileEq info
where
  /-- The `file=...` fallback format. -/
  fileEq (info : String) : Option String :=
    match findSub "file=".data info.data with
    | some start =>
      let rest := info.data.drop (start + 5)
      let e := (findSub' rest)
      let filename := trimMatchesL '"' (rest.take e)
      if filename.isEmpty then none else some ⟨filename⟩
    | none => none
  /-- `rest.find(char::is_whitespace).unwrap_or(rest.len())`. -/
  findSub' (rest : List Char) : Nat :=
    ((rest.takeWhile (fun c => !c.isWhitespace)).length)

/-! ## `veneer-static/src/builder.rs` — build_page's transformation loop -/

/-- Generic association-list insert: overwrite in place or append
(`HashMap::insert`). -/
def assocInsert {α : Type} (m : List (String × α)) (k : String) (v : α) :
    List (String × α) :=
  if m.any (fun p => p.1 == k) then
    m.map (fun p => if p.1 == k then (k, v) else p)
  else m ++ [(k, v)]

/-- The per-page mutable state of `StaticBuilder::build_page`
(`builder.rs` lines 381–384): collected web components, the
memoization map component name → tag name, the block-id → replacement-HTML
map, and the component counter. -/
structure BuildState where
  web_components : List TransformedBlock
  generated_components : List (String × String)
  block_replacements : List (String × String)
  components_count : Nat
deriving Repr, DecidableEq

/-- One iteration of the live-block transformation loop of `build_page`
(`builder.rs` lines 387–456): registry path with per-exact-name memoization
(a generation failure skips the replacement, mirroring the `continue`),
warn-only on unresolved components, full-transform fallback when inline
parsing fails. -/
def processBlock (reg : ComponentRegistry) (st : BuildState) (block : CodeBlock) :
    BuildState :=
  if block.is_live then
    match parse_inline_jsx block.source with
    | some jsx =>
      if reg.contains jsx.component then
        let tag_name := toLowerS jsx.component ++ "-preview"
        let gen : Option BuildState :=
          if (List.lookup jsx.component st.generated_components).isSome then
            some st
          else
            match reg.generateWebComponent jsx.component tag_name with
            | Except.ok transformed =>
              some { st with
                generated_components :=
                  assocInsert st.generated_components jsx.component tag_name
                web_components := st.web_components ++ [transformed] }
            | Except.error _ => none
        match gen with
        | none => st
        | some st1 =>
          let actual_tag :=
            (List.lookup jsx.component st1.generated_components).getD tag_name
          { st1 with
            block_replacements := assocInsert st1.block_replacements block.id
              (to_custom_element jsx actual_tag)
            components_count := st1.components_count + 1 }
      else st
    | none =>
      let tag_name := "preview-" ++ block.id
      match ReactAdapter.transform block.source tag_name with
      | Except.ok transformed =>
        { st with
          web_components := st.web_components ++ [transformed]
          components_count := st.components_count + 1 }
      | Except.error _ => st
  else st

/-- The whole transformation loop of `build_page` over a page's code
blocks. -/
def build_page_blocks (reg : ComponentRegistry) (blocks : List CodeBlock) :
    BuildState :=
  blocks.foldl (processBlock reg) ⟨[], [], [], 0⟩

/-! ## Claim C2 -/

/-- C2: parsing `<Card><Card>x</Card></Card>` yields component `Card`,
`selfClosing = false`, and children exactly `<Card>x</Card>`: the
depth-counting scan of `find_matching_close_tag` reaches depth zero only at
the outer close tag. -/
theorem c2_nested_same_named_outer_close :
    parse_inline_jsx "<Card><Card>x</Card></Card>" =
      some { component := "Card", props := [],
             children := some "<Card>x</Card>", self_closing := false } := by
  decide


theorem digitChar_isDigit (m : Nat) (h : m < 10) :
    (Nat.digitChar m).isDigit = true := by
  interval_cases m <;> decide

theorem toDigitsCore_digits :
    ∀ (fuel n : Nat) (ds : List Char), (∀ c ∈ ds, c.isDigit = true) →
      ∀ c ∈ Nat.toDigitsCore 10 fuel n ds, c.isDigit = true := by
  intro fuel
  induction fuel with
  | zero => intro n ds hds c hc; exact hds c hc
  | succ fuel ih =>
    intro n ds hds c hc
    simp only [Nat.toDigitsCore] at hc
    by_cases hz : n / 10 = 0
    · rw [if_pos hz] at hc
      rcases List.mem_cons.mp hc with rfl | hm
      · exact digitChar_isDigit _ (Nat.mod_lt _ (by omega))
      · exact hds c hm
    · rw [if_neg hz] at hc
      refine ih (n / 10) (Nat.digitChar (n % 10) :: ds) ?_ c hc
      intro c' hc'
      rcases List.mem_cons.mp hc' with rfl | hm
      · exact digitChar_isDigit _ (Nat.mod_lt _ (by omega))
      · exact hds c' hm

theorem toDigitsCore_length_ge :
    ∀ (fuel n : Nat) (ds : List Char),
      (Nat.toDigitsCore 10 (fuel + 1) n ds).length ≥ ds.length + 1 := by
  intro fuel
  induction fuel with
  | zero =>
    intro n ds
    simp only [Nat.toDigitsCore]
    by_cases hz : n / 10 = 0
    · rw [if_pos hz]; simp
    · rw [if_neg hz]; simp [Nat.toDigitsCore]
  | succ fuel ih =>
    intro n ds
    rw [show Nat.toDigitsCore 10 (fuel + 1 + 1) n ds =
        (if n / 10 = 0 then (Nat.digitChar (n % 10)) :: ds
         else Nat.toDigitsCore 10 (fuel + 1) (n / 10)
           ((Nat.digitChar (n % 10)) :: ds)) from rfl]
    by_cases hz : n / 10 = 0
    · rw [if_pos hz]; simp
    · rw [if_neg hz]
      have := ih (n / 10) (Nat.digitChar (n % 10) :: ds)
      simp only [List.length_cons] at this
      omega

theorem repr_data_digits (n : Nat) :
    ∀ c ∈ (Nat.repr n).data, c.isDigit = true := by
  intro c hc
  have : (Nat.repr n).data = Nat.toDigits 10 n := rfl
  rw [this] at hc
  exact toDigitsCore_digits (n + 1) n [] (by intro c h0; cases h0) c hc

theorem repr_data_ne_nil (n : Nat) : (Nat.repr n).data ≠ [] := by
  have h1 : (Nat.repr n).data = Nat.toDigits 10 n := rfl
  have h2 := toDigitsCore_length_ge n n []
  intro h
  rw [h1] at h
  unfold Nat.toDigits at h
  rw [h] at h2
  simp at h2

theorem fallback_tag_ne (C : String) (n : Nat) :
    ("preview-" ++ ("block-" ++ Nat.repr n)) ≠ toLowerS C ++ "-preview" := by
  intro h
  have hd := congrArg String.data h
  simp only [String.data_append] at hd
  have hlast := congrArg List.getLast? hd
  rw [List.getLast?_append, List.getLast?_append, List.getLast?_append] at hlast
  have hne := repr_data_ne_nil n
  obtain ⟨d, hd2⟩ := Option.isSome_iff_exists.mp (List.getLast?_isSome.mpr hne)
  have hdig : d.isDigit = true := by
    refine repr_data_digits n d ?_
    have : d ∈ (Nat.repr n).data.getLast? := by rw [hd2]; rfl
    obtain ⟨h', rfl⟩ := List.mem_getLast?_eq_getLast this
    exact List.getLast_mem h'
  rw [hd2] at hlast
  have : ("-preview".data : List Char).getLast? = some 'w' := by decide
  rw [this] at hlast
  simp only [Option.or] at hlast
  cases hlast
  simp at hdig

theorem registry_tag_inj (d c : String)
    (h : d ++ "-preview" = c ++ "-preview") : d = c := by
  have hd := congrArg String.data h
  simp only [String.data_append] at hd
  exact String.ext (List.append_cancel_right hd)

theorem lookup_mapReplace {α : Type} (m : List (String × α)) (k : String)
    (v : α) (h : m.any (fun p => p.1 == k) = true) :
    List.lookup k (m.map (fun p => if p.1 == k then (k, v) else p)) = some v := by
  induction m with
  | nil => simp at h
  | cons a m ih =>
    obtain ⟨a1, a2⟩ := a
    by_cases ha : a1 = k
    · subst ha
      simp [List.lookup_cons]
    · have hbeq : (k == a1) = false := by
        simp only [beq_eq_false_iff_ne, ne_eq]
        exact fun hh => ha hh.symm
      have hbeq2 : (a1 == k) = false := by
        simp only [beq_eq_false_iff_ne, ne_eq]
        exact ha
      have h' : m.any (fun p => p.1 == k) = true := by
        simpa [List.any_cons, hbeq2] using h
      simp only [List.map_cons, hbeq2, Bool.false_eq_true, if_false,
        List.lookup_cons, hbeq]
      exact ih h'

theorem lookup_append_last {α : Type} (m : List (String × α)) (k : String)
    (v : α) (h : m.any (fun p => p.1 == k) = false) :
    List.lookup k (m ++ [(k, v)]) = some v := by
  induction m with
  | nil => simp
  | cons a m ih =>
    obtain ⟨a1, a2⟩ := a
    have hbeq2 : (a1 == k) = false := by
      by_cases hh : a1 = k
      · exfalso; rw [List.any_cons] at h; simp [hh] at h
      · simp only [beq_eq_false_iff_ne, ne_eq]; exact hh
    have hbeq : (k == a1) = false := by
      simp only [beq_eq_false_iff_ne, ne_eq]
      intro hh
      rw [hh] at hbeq2
      simp at hbeq2
    have h' : m.any (fun p => p.1 == k) = false := by
      rw [List.any_cons] at h
      simpa [hbeq2] using h
    simp only [List.cons_append, List.lookup_cons, hbeq]
    exact ih h'

theorem lookup_assocInsert_self {α : Type} (m : List (String × α)) (k : String)
    (v : α) : List.lookup k (assocInsert m k v) = some v := by
  unfold assocInsert
  by_cases h : m.any (fun p => p.1 == k) = true
  · rw [if_pos h]
    exact lookup_mapReplace m k v h
  · rw [if_neg h]
    exact lookup_append_last m k v (Bool.not_eq_true _ ▸ Bool.of_not_eq_true h)

theorem lookup_assocInsert_other {α : Type} (m : List (String × α))
    (k k' : String) (v : α) (h : k' ≠ k) :
    List.lookup k' (assocInsert m k v) = List.lookup k' m := by
  have hbeq : (k' == k) = false := by
    simp only [beq_eq_false_iff_ne, ne_eq]; exact h
  unfold assocInsert
  by_cases hany : m.any (fun p => p.1 == k) = true
  · rw [if_pos hany]
    clear hany
    induction m with
    | nil => simp
    | cons a m ih =>
      obtain ⟨a1, a2⟩ := a
      by_cases ha : a1 = k
      · subst ha
        simp only [List.map_cons, beq_self_eq_true, if_true, List.lookup_cons,
          hbeq]
        exact ih
      · have hbeq2 : (a1 == k) = false := by
          simp only [beq_eq_false_iff_ne, ne_eq]; exact ha
        simp only [List.map_cons, hbeq2, Bool.false_eq_true, if_false,
          List.lookup_cons]
        cases hkk : (k' == a1) with
        | true => rfl
        | false => exact ih
  · rw [if_neg hany]
    clear hany
    induction m with
    | nil => simp [List.lookup, hbeq]
    | cons a m ih =>
      obtain ⟨a1, a2⟩ := a
      simp only [List.cons_append, List.lookup_cons]
      cases hkk : (k' == a1) with
      | true => rfl
      | false => exact ih

theorem mem_assocInsert {α : Type} (m : List (String × α)) (k : String)
    (v : α) (kv : String × α) (h : kv ∈ assocInsert m k v) :
    kv = (k, v) ∨ kv ∈ m := by
  unfold assocInsert at h
  by_cases hany : m.any (fun p => p.1 == k) = true
  · rw [if_pos hany] at h
    obtain ⟨p, hp, hpe⟩ := List.mem_map.mp h
    by_cases hpk : p.1 = k
    · left
      rw [← hpe]
      simp [hpk]
    · right
      rw [← hpe]
      have : (p.1 == k) = false := by
        simp only [beq_eq_false_iff_ne, ne_eq]; exact hpk
      simp [this]
      exact hp
  · rw [if_neg hany] at h
    rcases List.mem_append.mp h with hm | hs
    · right; exact hm
    · left; simpa using hs

theorem lookup_mem {α : Type} :
    ∀ (m : List (String × α)) (k : String) (v : α),
      List.lookup k m = some v → (k, v) ∈ m := by
  intro m
  induction m with
  | nil => intro k v h; cases h
  | cons a m ih =>
    intro k v h
    rw [List.lookup_cons] at h
    cases hkk : (k == a.1) with
    | true =>
      rw [hkk] at h
      cases h
      have : k = a.1 := by simpa using hkk
      subst this
      left
    | false =>
      rw [hkk] at h
      right
      exact ih k v h

theorem transformedOf_tag (st : ComponentStructure) (t : String) :
    (transformedOf st t).tag_name = t := rfl
theorem except_map_tag (r : Except TransformError ComponentStructure)
    (t : String) (tb : TransformedBlock)
    (h : (match r with
          | Except.error e => Except.error e
          | Except.ok structure' =>
            Except.ok (transformedOf structure' t)) = Except.ok tb) :
    tb.tag_name = t := by
  cases r with
  | error e => cases h
  | ok st =>
    rw [← Except.ok.inj h]
    exact transformedOf_tag st t

theorem transform_ok_tag (s t : String) (tb : TransformedBlock)
    (h : ReactAdapter.transform s t = Except.ok tb) : tb.tag_name = t :=
  except_map_tag (extract_structure s) t tb h

theorem contains_get (reg : ComponentRegistry) (K : String)
    (h : reg.contains K = true) : ∃ cached, reg.get K = some cached := by
  unfold ComponentRegistry.contains at h
  obtain ⟨c, hc⟩ := Option.isSome_iff_exists.mp h
  exact ⟨c, hc⟩

theorem genWC_of_get (reg : ComponentRegistry) (K t : String)
    (cached : CachedComponent) (h : reg.get K = some cached) :
    reg.generateWebComponent K t =
      Except.ok (transformedOf cached.structure' t) := by
  unfold ComponentRegistry.generateWebComponent
  rw [h]

theorem processBlock_not_live (reg : ComponentRegistry) (st : BuildState)
    (b : CodeBlock) (h : b.is_live = false) : processBlock reg st b = st := by
  unfold processBlock
  rw [h]
  rfl

theorem processBlock_parse_fail_ok (reg : ComponentRegistry) (st : BuildState)
    (b : CodeBlock) (tr : TransformedBlock)
    (hl : b.is_live = true) (hp : parse_inline_jsx b.source = none)
    (ht : ReactAdapter.transform b.source ("preview-" ++ b.id) = Except.ok tr) :
    processBlock reg st b =
      { st with web_components := st.web_components ++ [tr],
                components_count := st.components_count + 1 } := by
  unfold processBlock
  rw [hl, hp]
  simp only [if_true]
  rw [ht]

theorem processBlock_parse_fail_err (reg : ComponentRegistry) (st : BuildState)
    (b : CodeBlock) (e : TransformError)
    (hl : b.is_live = true) (hp : parse_inline_jsx b.source = none)
    (ht : ReactAdapter.transform b.source ("preview-" ++ b.id) =
      Except.error e) :
    processBlock reg st b = st := by
  unfold processBlock
  rw [hl, hp]
  simp only [if_true]
  rw [ht]

theorem processBlock_unresolved (reg : ComponentRegistry) (st : BuildState)
    (b : CodeBlock) (jsx : InlineJsx)
    (hl : b.is_live = true) (hp : parse_inline_jsx b.source = some jsx)
    (hc : reg.contains jsx.component = false) :
    processBlock reg st b = st := by
  unfold processBlock
  rw [hl, hp]
  simp only [if_true]
  rw [hc]
  rfl

theorem processBlock_hit (reg : ComponentRegistry) (st : BuildState)
    (b : CodeBlock) (jsx : InlineJsx) (t0 : String)
    (hl : b.is_live = true) (hp : parse_inline_jsx b.source = some jsx)
    (hc : reg.contains jsx.component = true)
    (hm : List.lookup jsx.component st.generated_components = some t0) :
    processBlock reg st b =
      { st with
        block_replacements := assocInsert st.block_replacements b.id
          (to_custom_element jsx t0)
        components_count := st.components_count + 1 } := by
  unfold processBlock
  rw [hl, hp]
  simp only [if_true]
  rw [hc]
  simp only [if_true, hm, Option.isSome_some, Option.getD_some]

theorem processBlock_miss (reg : ComponentRegistry) (st : BuildState)
    (b : CodeBlock) (jsx : InlineJsx) (cached : CachedComponent)
    (hl : b.is_live = true) (hp : parse_inline_jsx b.source = some jsx)
    (hc : reg.contains jsx.component = true)
    (hm : List.lookup jsx.component st.generated_components = none)
    (hg : reg.get jsx.component = some cached) :
    processBlock reg st b =
      { web_components := st.web_components ++
          [transformedOf cached.structure'
            (toLowerS jsx.component ++ "-preview")]
        generated_components := assocInsert st.generated_components
          jsx.component (toLowerS jsx.component ++ "-preview")
        block_replacements := assocInsert st.block_replacements b.id
          (to_custom_element jsx (toLowerS jsx.component ++ "-preview"))
        components_count := st.components_count + 1 } := by
  unfold processBlock
  rw [hl, hp]
  simp only [if_true]
  rw [hc]
  simp only [if_true, hm, Option.isSome_none]
  rw [genWC_of_get reg jsx.component _ cached hg]
  simp only [Bool.false_eq_true, if_false]
  rw [lookup_assocInsert_self]
  simp only [Option.getD_some]

theorem step_I1 (reg : ComponentRegistry) (st : BuildState) (b : CodeBlock)
    (h : ∀ p ∈ st.generated_components, p.2 = toLowerS p.1 ++ "-preview") :
    ∀ p ∈ (processBlock reg st b).generated_components,
      p.2 = toLowerS p.1 ++ "-preview" := by
  cases hl : b.is_live with
  | false => rw [processBlock_not_live reg st b hl]; exact h
  | true =>
    cases hp : parse_inline_jsx b.source with
    | none =>
      cases ht : ReactAdapter.transform b.source ("preview-" ++ b.id) with
      | ok tr => rw [processBlock_parse_fail_ok reg st b tr hl hp ht]; exact h
      | error e => rw [processBlock_parse_fail_err reg st b e hl hp ht]; exact h
    | some jsx =>
      cases hc : reg.contains jsx.component with
      | false => rw [processBlock_unresolved reg st b jsx hl hp hc]; exact h
      | true =>
        cases hm : List.lookup jsx.component st.generated_components with
        | some t0 => rw [processBlock_hit reg st b jsx t0 hl hp hc hm]; exact h
        | none =>
          obtain ⟨cached, hg⟩ := contains_get reg jsx.component hc
          rw [processBlock_miss reg st b jsx cached hl hp hc hm hg]
          intro p hp2
          rcases mem_assocInsert _ _ _ _ hp2 with rfl | hmem
          · rfl
          · exact h p hmem

theorem step_gen_mono (reg : ComponentRegistry) (st : BuildState)
    (b : CodeBlock) (C : String)
    (h : (List.lookup C st.generated_components).isSome = true) :
    (List.lookup C (processBlock reg st b).generated_components).isSome =
      true := by
  cases hl : b.is_live with
  | false => rw [processBlock_not_live reg st b hl]; exact h
  | true =>
    cases hp : parse_inline_jsx b.source with
    | none =>
      cases ht : ReactAdapter.transform b.source ("preview-" ++ b.id) with
      | ok tr => rw [processBlock_parse_fail_ok reg st b tr hl hp ht]; exact h
      | error e => rw [processBlock_parse_fail_err reg st b e hl hp ht]; exact h
    | some jsx =>
      cases hc : reg.contains jsx.component with
      | false => rw [processBlock_unresolved reg st b jsx hl hp hc]; exact h
      | true =>
        cases hm : List.lookup jsx.component st.generated_components with
        | some t0 => rw [processBlock_hit reg st b jsx t0 hl hp hc hm]; exact h
        | none =>
          obtain ⟨cached, hg⟩ := contains_get reg jsx.component hc
          rw [processBlock_miss reg st b jsx cached hl hp hc hm hg]
          by_cases hCK : C = jsx.component
          · subst hCK
            rw [lookup_assocInsert_self]
            rfl
          · rw [lookup_assocInsert_other _ _ _ _ hCK]
            exact h

theorem step_resolves (reg : ComponentRegistry) (st : BuildState)
    (b : CodeBlock) (C : String) (jsx : InlineJsx)
    (hl : b.is_live = true) (hp : parse_inline_jsx b.source = some jsx)
    (hcomp : jsx.component = C) (hC : reg.contains C = true) :
    (List.lookup C (processBlock reg st b).generated_components).isSome =
      true := by
  subst hcomp
  cases hm : List.lookup jsx.component st.generated_components with
  | some t0 =>
    rw [processBlock_hit reg st b jsx t0 hl hp hC hm]
    rw [hm]
    rfl
  | none =>
    obtain ⟨cached, hg⟩ := contains_get reg jsx.component hC
    rw [processBlock_miss reg st b jsx cached hl hp hC hm hg]
    rw [lookup_assocInsert_self]
    rfl

theorem step_repl_other (reg : ComponentRegistry) (st : BuildState)
    (b : CodeBlock) (id0 : String) (hne : b.id ≠ id0) :
    List.lookup id0 (processBlock reg st b).block_replacements =
      List.lookup id0 st.block_replacements := by
  have hne' : id0 ≠ b.id := fun hh => hne hh.symm
  cases hl : b.is_live with
  | false => rw [processBlock_not_live reg st b hl]
  | true =>
    cases hp : parse_inline_jsx b.source with
    | none =>
      cases ht : ReactAdapter.transform b.source ("preview-" ++ b.id) with
      | ok tr => rw [processBlock_parse_fail_ok reg st b tr hl hp ht]
      | error e => rw [processBlock_parse_fail_err reg st b e hl hp ht]
    | some jsx =>
      cases hc : reg.contains jsx.component with
      | false => rw [processBlock_unresolved reg st b jsx hl hp hc]
      | true =>
        cases hm : List.lookup jsx.component st.generated_components with
        | some t0 =>
          rw [processBlock_hit reg st b jsx t0 hl hp hc hm]
          exact lookup_assocInsert_other _ _ _ _ hne'
        | none =>
          obtain ⟨cached, hg⟩ := contains_get reg jsx.component hc
          rw [processBlock_miss reg st b jsx cached hl hp hc hm hg]
          exact lookup_assocInsert_other _ _ _ _ hne'

theorem step_repl_self (reg : ComponentRegistry) (st : BuildState)
    (b : CodeBlock) (C : String) (jsx : InlineJsx)
    (hI1 : ∀ p ∈ st.generated_components, p.2 = toLowerS p.1 ++ "-preview")
    (hl : b.is_live = true) (hp : parse_inline_jsx b.source = some jsx)
    (hcomp : jsx.component = C) (hC : reg.contains C = true) :
    List.lookup b.id (processBlock reg st b).block_replacements =
      some (to_custom_element jsx (toLowerS C ++ "-preview")) := by
  subst hcomp
  cases hm : List.lookup jsx.component st.generated_components with
  | some t0 =>
    rw [processBlock_hit reg st b jsx t0 hl hp hC hm]
    have ht0 : t0 = toLowerS jsx.component ++ "-preview" :=
      hI1 (jsx.component, t0) (lookup_mem _ _ _ hm)
    rw [lookup_assocInsert_self, ht0]
  | none =>
    obtain ⟨cached, hg⟩ := contains_get reg jsx.component hC
    rw [processBlock_miss reg st b jsx cached hl hp hC hm hg]
    rw [lookup_assocInsert_self]

theorem step_I2 (reg : ComponentRegistry) (st : BuildState) (b : CodeBlock)
    (C : String)
    (hcase : ∀ jsx, parse_inline_jsx b.source = some jsx →
      toLowerS jsx.component = toLowerS C → jsx.component = C)
    (hid : ∃ n, b.id = "block-" ++ Nat.repr n)
    (h : (st.web_components.filter
        (fun tb => tb.tag_name == toLowerS C ++ "-preview")).length =
      if (List.lookup C st.generated_components).isSome then 1 else 0) :
    ((processBlock reg st b).web_components.filter
        (fun tb => tb.tag_name == toLowerS C ++ "-preview")).length =
      if (List.lookup C
          (processBlock reg st b).generated_components).isSome
      then 1 else 0 := by
  cases hl : b.is_live with
  | false => rw [processBlock_not_live reg st b hl]; exact h
  | true =>
    cases hp : parse_inline_jsx b.source with
    | none =>
      cases ht : ReactAdapter.transform b.source ("preview-" ++ b.id) with
      | ok tr =>
        rw [processBlock_parse_fail_ok reg st b tr hl hp ht]
        obtain ⟨n, hid⟩ := hid
        have htag : tr.tag_name = "preview-" ++ b.id :=
          transform_ok_tag _ _ _ ht
        have hne : (tr.tag_name == toLowerS C ++ "-preview") = false := by
          refine beq_eq_false_iff_ne.mpr ?_
          rw [htag, hid]
          exact fallback_tag_ne C n
        simp only [List.filter_append, List.filter_cons, hne,
          Bool.false_eq_true, if_false, List.filter_nil, List.append_nil]
        exact h
      | error e => rw [processBlock_parse_fail_err reg st b e hl hp ht]; exact h
    | some jsx =>
      cases hc : reg.contains jsx.component with
      | false => rw [processBlock_unresolved reg st b jsx hl hp hc]; exact h
      | true =>
        cases hm : List.lookup jsx.component st.generated_components with
        | some t0 => rw [processBlock_hit reg st b jsx t0 hl hp hc hm]; exact h
        | none =>
          obtain ⟨cached, hg⟩ := contains_get reg jsx.component hc
          rw [processBlock_miss reg st b jsx cached hl hp hc hm hg]
          by_cases heq : toLowerS jsx.component = toLowerS C
          · have hjc : jsx.component = C := hcase jsx hp heq
            subst hjc
            rw [hm] at h
            simp only [Option.isSome_none, Bool.false_eq_true, if_false] at h
            have htb : ((transformedOf cached.structure'
                (toLowerS jsx.component ++ "-preview")).tag_name ==
                toLowerS jsx.component ++ "-preview") = true := by
              rw [transformedOf_tag]
              exact beq_self_eq_true _
            simp only [List.filter_append, List.filter_cons, htb, if_true,
              List.filter_nil, List.length_append, h, List.length_cons,
              List.length_nil, lookup_assocInsert_self, Option.isSome_some,
              if_true]
          · have hne : ((transformedOf cached.structure'
                (toLowerS jsx.component ++ "-preview")).tag_name ==
                toLowerS C ++ "-preview") = false := by
              refine beq_eq_false_iff_ne.mpr ?_
              rw [transformedOf_tag]
              intro hh
              exact heq (registry_tag_inj _ _ hh)
            have hCK : C ≠ jsx.component := by
              intro hh
              exact heq (by rw [hh])
            simp only [List.filter_append, List.filter_cons, hne,
              Bool.false_eq_true, if_false, List.filter_nil, List.append_nil,
              lookup_assocInsert_other _ _ _ _ hCK]
            exact h

theorem fold_I1 (reg : ComponentRegistry) :
    ∀ (blocks : List CodeBlock) (st : BuildState),
      (∀ p ∈ st.generated_components, p.2 = toLowerS p.1 ++ "-preview") →
      ∀ p ∈ (List.foldl (processBlock reg) st blocks).generated_components,
        p.2 = toLowerS p.1 ++ "-preview" := by
  intro blocks
  induction blocks with
  | nil => intro st h; exact h
  | cons a t ih => intro st h; exact ih _ (step_I1 reg st a h)

theorem fold_gen_mono (reg : ComponentRegistry) (C : String) :
    ∀ (blocks : List CodeBlock) (st : BuildState),
      (List.lookup C st.generated_components).isSome = true →
      (List.lookup C
        (List.foldl (processBlock reg) st blocks).generated_components).isSome
        = true := by
  intro blocks
  induction blocks with
  | nil => intro st h; exact h
  | cons a t ih => intro st h; exact ih _ (step_gen_mono reg st a C h)

theorem fold_I2 (reg : ComponentRegistry) (C : String) :
    ∀ (blocks : List CodeBlock) (st : BuildState),
      (∀ b ∈ blocks,
        (∀ jsx, parse_inline_jsx b.source = some jsx →
          toLowerS jsx.component = toLowerS C → jsx.component = C) ∧
        ∃ n, b.id = "block-" ++ Nat.repr n) →
      (st.web_components.filter
          (fun tb => tb.tag_name == toLowerS C ++ "-preview")).length =
        (if (List.lookup C st.generated_components).isSome then 1 else 0) →
      ((List.foldl (processBlock reg) st blocks).web_components.filter
          (fun tb => tb.tag_name == toLowerS C ++ "-preview")).length =
        (if (List.lookup C
            (List.foldl (processBlock reg) st blocks).generated_components).isSome
         then 1 else 0) := by
  intro blocks
  induction blocks with
  | nil => intro st _ h; exact h
  | cons a t ih =>
    intro st hall h
    exact ih _ (fun b hb => hall b (List.mem_cons_of_mem a hb))
      (step_I2 reg st a C (hall a (List.mem_cons_self a t)).1
        (hall a (List.mem_cons_self a t)).2 h)

theorem fold_resolve (reg : ComponentRegistry) (C : String) :
    ∀ (blocks : List CodeBlock) (st : BuildState) (b : CodeBlock)
      (jsx : InlineJsx), b ∈ blocks → b.is_live = true →
      parse_inline_jsx b.source = some jsx → jsx.component = C →
      reg.contains C = true →
      (List.lookup C
        (List.foldl (processBlock reg) st blocks).generated_components).isSome
        = true := by
  intro blocks
  induction blocks with
  | nil => intro st b jsx hb; cases hb
  | cons a t ih =>
    intro st b jsx hb hl hp hcomp hC
    rcases List.mem_cons.mp hb with rfl | hbt
    · exact fold_gen_mono reg C t _ (step_resolves reg st b C jsx hl hp hcomp hC)
    · exact ih _ b jsx hbt hl hp hcomp hC

theorem fold_repl_other (reg : ComponentRegistry) :
    ∀ (blocks : List CodeBlock) (st : BuildState) (id0 : String),
      (∀ b ∈ blocks, b.id ≠ id0) →
      List.lookup id0
          (List.foldl (processBlock reg) st blocks).block_replacements =
        List.lookup id0 st.block_replacements := by
  intro blocks
  induction blocks with
  | nil => intro st id0 _; rfl
  | cons a t ih =>
    intro st id0 hall
    rw [List.foldl_cons,
      ih _ id0 (fun b hb => hall b (List.mem_cons_of_mem a hb)),
      step_repl_other reg st a id0 (hall a (List.mem_cons_self a t))]

theorem fold_repl (reg : ComponentRegistry) (C : String) :
    ∀ (blocks : List CodeBlock) (st : BuildState),
      (∀ p ∈ st.generated_components, p.2 = toLowerS p.1 ++ "-preview") →
      (blocks.map CodeBlock.id).Nodup →
      ∀ b ∈ blocks, ∀ jsx : InlineJsx, b.is_live = true →
        parse_inline_jsx b.source = some jsx → jsx.component = C →
        reg.contains C = true →
        List.lookup b.id
            (List.foldl (processBlock reg) st blocks).block_replacements =
          some (to_custom_element jsx (toLowerS C ++ "-preview")) := by
  intro blocks
  induction blocks with
  | nil => intro st _ _ b hb; cases hb
  | cons a t ih =>
    intro st hI1 hnodup b hb jsx hl hp hcomp hC
    rw [List.map_cons, List.nodup_cons] at hnodup
    obtain ⟨hnotin, hnod⟩ := hnodup
    rcases List.mem_cons.mp hb with rfl | hbt
    · have hne : ∀ x ∈ t, x.id ≠ b.id := by
        intro x hx hxe
        exact hnotin (List.mem_map.mpr ⟨x, hx, hxe⟩)
      rw [List.foldl_cons, fold_repl_other reg t _ b.id hne]
      exact step_repl_self reg st b C jsx hI1 hl hp hcomp hC
    · exact ih _ (step_I1 reg st a hI1) hnod b hbt jsx hl hp hcomp hC

/-- C4 (amended): `build_page`'s memoization map is keyed by the exact
component-name string of each usage.  If every live usage that case-folds to
the registry component `C` spells the name exactly `C`, then the page's
collected web components contain exactly one artifact carrying the memoized
tag `lowercase(C) ++ "-preview"`, and every such usage block's replacement is
its own custom element under that memoized tag. -/
theorem c4_artifact_once_per_exact_name (reg : ComponentRegistry) (C : String)
    (blocks : List CodeBlock) (b0 : CodeBlock) (jsx0 : InlineJsx)
    (hC : reg.contains C = true)
    (hcase : ∀ b ∈ blocks, ∀ jsx : InlineJsx,
      parse_inline_jsx b.source = some jsx →
      toLowerS jsx.component = toLowerS C → jsx.component = C)
    (hids : ∀ b ∈ blocks, ∃ n, b.id = "block-" ++ Nat.repr n)
    (hnodup : (blocks.map CodeBlock.id).Nodup)
    (hb0 : b0 ∈ blocks) (hl0 : b0.is_live = true)
    (hp0 : parse_inline_jsx b0.source = some jsx0)
    (hc0 : jsx0.component = C) :
    ((build_page_blocks reg blocks).web_components.filter
        (fun tb => tb.tag_name == toLowerS C ++ "-preview")).length = 1 ∧
    ∀ b ∈ blocks, ∀ jsx : InlineJsx, b.is_live = true →
      parse_inline_jsx b.source = some jsx → jsx.component = C →
      List.lookup b.id (build_page_blocks reg blocks).block_replacements =
        some (to_custom_element jsx (toLowerS C ++ "-preview")) := by
  constructor
  · have hI2 := fold_I2 reg C blocks ⟨[], [], [], 0⟩
      (fun b hb => ⟨hcase b hb, hids b hb⟩) rfl
    have hsome := fold_resolve reg C blocks ⟨[], [], [], 0⟩ b0 jsx0 hb0 hl0
      hp0 hc0 hC
    unfold build_page_blocks
    rw [hI2, hsome]
    rfl
  · intro b hb jsx hl hp hcomp
    exact fold_repl reg C blocks ⟨[], [], [], 0⟩ (by intro p hp2; cases hp2)
      hnodup b hb jsx hl hp hcomp hC

def btnStruct : ComponentStructure :=
  { name := "Button", variant_lookup := [("a", "x")], size_lookup := [],
    base_classes := "", disabled_classes := "d",
    default_variant := "a", default_size := "default",
    observed_attributes := [] }

def regC4 : ComponentRegistry :=
  { components := [("button",
      { name := "Button", source_path := "button.tsx",
        structure' := btnStruct, source := "s" })] }

def blocksC4 : List CodeBlock :=
  [CodeBlock.new Language.tsx BlockMode.live "<Button />" 1,
   CodeBlock.new Language.tsx BlockMode.live "<Button />" 3,
   CodeBlock.new Language.tsx BlockMode.live "<BUTTON />" 5]

def blocksW : List CodeBlock :=
  [CodeBlock.new Language.tsx BlockMode.live "<Button />" 1,
   CodeBlock.new Language.tsx BlockMode.live "<Button />" 3]

def jsxW : InlineJsx :=
  { component := "Button", props := [], children := none,
    self_closing := true }

set_option maxRecDepth 4000 in
/-- C4 (counterexample): on a page with three live blocks `<Button />`,
`<Button />`, `<BUTTON />`, every usage is resolved by the case-folding
registry lookup to the same cached component, yet the collected web
components hold the `button-preview` artifact twice: memoization is keyed by
the exact spelling of the usage name, so the case variant defeats it. -/
theorem c4_case_variants_duplicate_artifact :
    regC4.contains "Button" = true ∧ regC4.contains "BUTTON" = true ∧
    ((build_page_blocks regC4 blocksC4).web_components.filter
        (fun tb => tb.tag_name == "button-preview")).length = 2 := by
  refine ⟨by decide, by decide, by decide⟩

theorem c4_artifact_once_per_exact_name_witness :
    ((build_page_blocks regC4 blocksW).web_components.filter
        (fun tb => tb.tag_name == toLowerS "Button" ++ "-preview")).length = 1 ∧
    ∀ b ∈ blocksW, ∀ jsx : InlineJsx, b.is_live = true →
      parse_inline_jsx b.source = some jsx → jsx.component = "Button" →
      List.lookup b.id (build_page_blocks regC4 blocksW).block_replacements =
        some (to_custom_element jsx (toLowerS "Button" ++ "-preview")) := by
  refine c4_artifact_once_per_exact_name regC4 "Button" blocksW
    (CodeBlock.new Language.tsx BlockMode.live "<Button />" 1) jsxW
    (by decide) ?_ ?_ (by decide) (by decide) (by decide) (by decide) rfl
  · intro b hb jsx hp _
    have hb' : b.source = "<Button />" := by
      rcases List.mem_cons.mp hb with rfl | hb2
      · rfl
      · rcases List.mem_cons.mp hb2 with rfl | hb3
        · rfl
        · cases hb3
    rw [hb'] at hp
    have hpe : parse_inline_jsx "<Button />" = some jsxW := by decide
    rw [hpe] at hp
    cases hp
    rfl
  · intro b hb
    rcases List.mem_cons.mp hb with rfl | hb2
    · exact ⟨1, rfl⟩
    · rcases List.mem_cons.mp hb2 with rfl | hb3
      · exact ⟨3, rfl⟩
      · cases hb3


/-! ## `veneer-mdx/src/parser.rs` — the parse_mdx event loop -/

/-- `parser.rs` `TocEntry`. -/
structure TocEntry where
  title : String
  id : String
  level : Nat
deriving Repr, DecidableEq

/-- `parser.rs` `ParsedDoc`. -/
structure ParsedDoc where
  frontmatter : Option Frontmatter
  content : String
  code_blocks : List CodeBlock
  toc : List TocEntry
deriving Repr, DecidableEq

/-- `parser.rs` `ParseError`. -/
inductive ParseError where
  | frontmatter : FrontmatterError → ParseError
  | parse : Nat → String → ParseError
deriving Repr, DecidableEq

/-- The `pulldown_cmark` events `parse_mdx` dispatches on.  The markdown
event stream itself is produced by the third-party `pulldown_cmark` crate,
outside this repository, so the loop is verified over an abstract event
list: `startCodeBlock none` is an indented block (`CodeBlockKind::Indented`),
`startCodeBlock (some info)` a fenced one. -/
inductive MdEvent where
  | startCodeBlock : Option String → MdEvent
  | text : String → MdEvent
  | endCodeBlock : MdEvent
  | startHeading : Nat → MdEvent
  | endHeading : MdEvent
  | softBreak : MdEvent
  | hardBreak : MdEvent
  | other : MdEvent
deriving Repr, DecidableEq

/-- `text.matches('\n').count()`. -/
def countNewlines (s : String) : Nat :=
  (s.data.filter (· == '\n')).length

/-- The mutable state of `parse_mdx`'s event loop (`parser.rs` lines
53–65). -/
structure ParserLoopState where
  code_blocks : List CodeBlock
  toc : List TocEntry
  current_code_block : Option (String × Nat)
  current_heading : Option (Nat × String)
  line_number : Nat
deriving Repr, DecidableEq

/-- One iteration of `parse_mdx`'s `for event in parser` loop (`parser.rs`
lines 71–120). -/
def parseEventStep (offset : Nat) (st : ParserLoopState) (e : MdEvent) :
    ParserLoopState :=
  match e with
  | MdEvent.startCodeBlock kind =>
    let info := match kind with | some i => i | none => ""
    { st with current_code_block := some (info, st.line_number + offset) }
  | MdEvent.text t =>
    let st1 :=
      match st.current_code_block with
      | some (info, start_line) =>
        let language := Language.from_info info
        let mode := BlockMode.from_info info
        let filename := extract_filename info
        { st with code_blocks := st.code_blocks ++
            [{ CodeBlock.new language mode t start_line with
                 filename := filename }] }
      | none =>
        match st.current_heading with
        | some (level, heading_text) =>
          { st with current_heading := some (level, heading_text ++ t) }
        | none => st
    { st1 with line_number := st1.line_number + countNewlines t }
  | MdEvent.endCodeBlock => { st with current_code_block := none }
  | MdEvent.startHeading level =>
    { st with current_heading := some (level, "") }
  | MdEvent.endHeading =>
    match st.current_heading with
    | some (level, title) =>
      { st with current_heading := none,
                toc := st.toc ++
                  [{ title := title, id := slugify title, level := level }] }
    | none => st
  | MdEvent.softBreak => { st with line_number := st.line_number + 1 }
  | MdEvent.hardBreak => { st with line_number := st.line_number + 1 }
  | MdEvent.other => st

/-- `frontmatter_line_offset` (`parser.rs` lines 68–69): the line count of
the source prefix consumed by the header region. -/
def frontmatterLineOffset (source content : String) : Nat :=
  (rustLines (source.data.take (source.data.length - content.data.length))).length

/-- `parser.rs` `parse_mdx`, over the abstract event stream of its
markdown parser. -/
def parse_mdx (source : String) (events : List MdEvent) :
    Except ParseError ParsedDoc :=
  match extract_frontmatter source with
  | Except.error e => Except.error (ParseError.frontmatter e)
  | Except.ok (frontmatter, content) =>
    let offset := frontmatterLineOffset source content
    let final := events.foldl (parseEventStep offset) ⟨[], [], none, none, 1⟩
    Except.ok { frontmatter := frontmatter, content := content,
                code_blocks := final.code_blocks, toc := final.toc }

/-- The line numbers the claim promises, computed directly from the claim's
words: for each code block emitted on block text, the running line counter
as it stood at the block's opening fence, plus the frontmatter line
offset. -/
def specBlockLines (offset : Nat) :
    List MdEvent → Nat → Option Nat → List Nat
  | [], _, _ => []
  | e :: es, ln, pending =>
    match e with
    | MdEvent.startCodeBlock _ => specBlockLines offset es ln (some (ln + offset))
    | MdEvent.text t =>
      match pending with
      | some fenceLn =>
        fenceLn :: specBlockLines offset es (ln + countNewlines t) pending
      | none => specBlockLines offset es (ln + countNewlines t) none
    | MdEvent.endCodeBlock => specBlockLines offset es ln none
    | MdEvent.softBreak => specBlockLines offset es (ln + 1) pending
    | MdEvent.hardBreak => specBlockLines offset es (ln + 1) pending
    | _ => specBlockLines offset es ln pending

theorem foldEvents_lines (offset : Nat) :
    ∀ (events : List MdEvent) (st : ParserLoopState),
      ((events.foldl (parseEventStep offset) st).code_blocks.map
          CodeBlock.line_number) =
        (st.code_blocks.map CodeBlock.line_number) ++
          specBlockLines offset events st.line_number
            (st.current_code_block.map Prod.snd) := by
  intro events
  induction events with
  | nil => intro st; simp [specBlockLines]
  | cons e es ih =>
    intro st
    rw [List.foldl_cons]
    cases e with
    | startCodeBlock kind =>
      rw [ih]
      simp [parseEventStep, specBlockLines]
    | text t =>
      cases hcb : st.current_code_block with
      | some p =>
        obtain ⟨info, sl⟩ := p
        rw [ih]
        simp [parseEventStep, specBlockLines, hcb, CodeBlock.new]
      | none =>
        cases hch : st.current_heading with
        | some q =>
          obtain ⟨level, htxt⟩ := q
          rw [ih]
          simp [parseEventStep, specBlockLines, hcb, hch]
        | none =>
          rw [ih]
          simp [parseEventStep, specBlockLines, hcb, hch]
    | endCodeBlock =>
      rw [ih]
      simp [parseEventStep, specBlockLines]
    | startHeading level =>
      rw [ih]
      simp [parseEventStep, specBlockLines]
    | endHeading =>
      cases hch : st.current_heading with
      | some q =>
        obtain ⟨level, title⟩ := q
        rw [ih]
        simp [parseEventStep, specBlockLines, hch]
      | none =>
        rw [ih]
        simp [parseEventStep, specBlockLines, hch]
    | softBreak =>
      rw [ih]
      simp [parseEventStep, specBlockLines]
    | hardBreak =>
      rw [ih]
      simp [parseEventStep, specBlockLines]
    | other =>
      rw [ih]
      simp [parseEventStep, specBlockLines]

theorem parse_mdx_shape (r : Except FrontmatterError (Option Frontmatter × String))
    (source : String) (events : List MdEvent) (doc : ParsedDoc)
    (h : (match r with
          | Except.error e => Except.error (ParseError.frontmatter e)
          | Except.ok (frontmatter, content) =>
            Except.ok
              { frontmatter := frontmatter
                content := content
                code_blocks := (events.foldl
                  (parseEventStep (frontmatterLineOffset source content))
                  ⟨[], [], none, none, 1⟩).code_blocks
                toc := (events.foldl
                  (parseEventStep (frontmatterLineOffset source content))
                  ⟨[], [], none, none, 1⟩).toc } :
          Except ParseError ParsedDoc) = Except.ok doc) :
    doc.code_blocks = (events.foldl
        (parseEventStep (frontmatterLineOffset source doc.content))
        ⟨[], [], none, none, 1⟩).code_blocks := by
  cases r with
  | error e => cases h
  | ok p =>
    obtain ⟨fm, content⟩ := p
    rw [← Except.ok.inj h]

/-- C7: for every successfully parsed document, the extracted code blocks'
line numbers are exactly what the claim describes: for each block, the event
loop's running line counter as it stood at the block's opening fence, plus
the one-time frontmatter line offset computed from the original header
region (the markdown event stream itself comes from the third-party
`pulldown_cmark` crate and is quantified over). -/
theorem c7_line_numbers (source : String) (events : List MdEvent)
    (doc : ParsedDoc) (h : parse_mdx source events = Except.ok doc) :
    doc.code_blocks.map CodeBlock.line_number =
      specBlockLines (frontmatterLineOffset source doc.content) events 1
        none := by
  have hblocks := parse_mdx_shape (extract_frontmatter source) source events
    doc h
  rw [hblocks, foldEvents_lines]
  rfl

def srcW : String := "---\ntitle: T\n---\nhello"
def evsW : List MdEvent :=
  [MdEvent.startHeading 1, MdEvent.text "T", MdEvent.endHeading,
   MdEvent.softBreak,
   MdEvent.startCodeBlock (some "tsx live"), MdEvent.text "<Button />\n",
   MdEvent.endCodeBlock]
def fmW : Frontmatter :=
  { title := "T"
    description := none
    component := none
    order := none
    nav := true
    slug := none }

def blockW : CodeBlock :=
  { id := "block-5"
    language := Language.tsx
    mode := BlockMode.live
    source := "<Button />\n"
    line_number := 5
    filename := none }

def docW : ParsedDoc :=
  { frontmatter := some fmW
    content := "hello"
    code_blocks := [blockW]
    toc := [{ title := "T", id := "t", level := 1 }] }

theorem c7_line_numbers_witness :
    parse_mdx srcW evsW = Except.ok docW ∧
    docW.code_blocks.map CodeBlock.line_number =
      specBlockLines (frontmatterLineOffset srcW docW.content) evsW 1 none :=
  ⟨by decide, c7_line_numbers srcW evsW docW (by decide)⟩

end Veneer
